import Mathlib

/-!
Verification development for the Marlow safety-gated tool execution engine.

Each Python component relevant to the checked properties is shallowly
embedded as executable Lean definitions:

* `marlow/core/error_journal.py` — journal entries, eviction, recording.
* `marlow/core/safety.py` — the safety gate (`approve_action`) with kill
  switch, blocked apps/commands, rate limiting and the audit log.
* `marlow/server.py` — the dispatcher (`call_tool` / `_call_tool_inner`).
* `marlow/core/workflows.py` — workflow replay (`workflow_run`).
* `marlow/core/escalation.py` — the escalating resolver (`smart_find`).
* `marlow/tools/app_script.py` — the sandbox script validator.
* `marlow/core/sanitizer.py` — the output redactor with the concrete
  regular-expression patterns of `marlow/core/config.py`.

Python strings are modelled as `List Char` where character-level reasoning
is needed (ASCII fragment relevant to the configured data), and as `String`
where only equality matters.  Wall-clock instants are modelled over an
arbitrary linearly ordered commutative ring, matching the arithmetic the
code performs on `time.time()` values.
-/

namespace Marlow

/-! ## String utilities (Python semantics, ASCII fragment) -/

/-- `str.lower` on a character (ASCII fragment of Python `str.lower`). -/
def pyLowerChar (c : Char) : Char := c.toLower

/-- `s.lower()` on a character list. -/
def lowerStr (s : List Char) : List Char := s.map pyLowerChar

/-- Python `str.isspace` characters used by `str.strip()` (ASCII). -/
def isPySpace (c : Char) : Bool :=
  c = ' ' || c = '\t' || c = '\n' || c = '\r' || c = '\x0b' || c = '\x0c'

/-- `s.lstrip()`. -/
def pyStripLeft (s : List Char) : List Char := s.dropWhile isPySpace

/-- `s.strip()`. -/
def pyStrip (s : List Char) : List Char :=
  ((s.dropWhile isPySpace).reverse.dropWhile isPySpace).reverse

/-- Lexicographic `≤` on character lists: Python string comparison by code
points, as used when ISO-format timestamps are compared. -/
def lexLe : List Char → List Char → Bool
  | [], _ => true
  | _ :: _, [] => false
  | a :: as, b :: bs => if a = b then lexLe as bs else decide (a < b)

/-- The characters of a string literal. -/
def str (s : String) : List Char := s.data

/-! ## Error journal (`marlow/core/error_journal.py`)

A journal entry as stored in `memory/error_journal.json`.  The timestamp is
an ISO string; the code orders entries by comparing those strings, which is
lexicographic comparison on code points. -/

structure JEntry where
  tool : String
  app : String
  window : String
  method_failed : String
  method_worked : Option String
  error_message : String
  params : List (String × String)
  timestamp : List Char
  success_count : Nat
  failure_count : Nat
deriving DecidableEq, Repr

/-- `ErrorJournal._normalize_window` helper: the suffix after the last
occurrence of a separator, if the separator occurs (`str.rsplit(sep, 1)[-1]`
combined with the preceding `in` test). -/
def afterLastSep (sep : List Char) : List Char → Option (List Char)
  | [] => none
  | c :: cs =>
    match afterLastSep sep cs with
    | some r => some r
    | none =>
      if sep <+: (c :: cs) then some ((c :: cs).drop sep.length) else none

/-- `ErrorJournal._normalize_window`. -/
def normalize_window (window : Option String) : String :=
  match window with
  | none => "unknown"
  | some s =>
    if s.data = [] then "unknown"
    else
      let w1 := pyStrip s.data
      let w2 := match afterLastSep (str " - ") w1 with
        | some r => r
        | none => w1
      String.mk (pyStrip (lowerStr w2))

/-- Maximum number of journal entries (`_MAX_ENTRIES`). -/
def maxEntries : Nat := 500

/-- The descending sort comparator used by `ErrorJournal._evict`:
Python sorts ascending by the key `(success_count, timestamp)` and then
reverses, which is a stable descending sort on that key. `entryGE a b` says
`a` sorts no later than `b`. -/
def entryGE (a b : JEntry) : Bool :=
  decide (b.success_count < a.success_count) ||
    (b.success_count == a.success_count && lexLe b.timestamp a.timestamp)

/-- `ErrorJournal._evict`. -/
def evict (entries : List JEntry) : List JEntry :=
  if entries.length ≤ maxEntries then entries
  else (entries.mergeSort entryGE).take maxEntries

/-- Replace the first element satisfying `p` by its image under `f`. -/
def updateFirst (p : JEntry → Bool) (f : JEntry → JEntry) :
    List JEntry → List JEntry
  | [] => []
  | e :: es => if p e then f e :: es else e :: updateFirst p f es

/-- The filter applied to `params` when a new failure entry is created. -/
def failureParamKeys : List String := ["element_name", "window_title", "target"]

/-- `ErrorJournal.record_failure`.  `now` is the ISO timestamp of the call. -/
def record_failure (entries : List JEntry) (tool : String)
    (window : Option String) (method error : String)
    (params : List (String × String)) (now : List Char) : List JEntry :=
  let app := normalize_window window
  let p := fun e : JEntry =>
    e.tool == tool && e.app == app && e.method_failed == method
  if entries.any p then
    updateFirst p
      (fun e => { e with
        error_message := error
        timestamp := now
        failure_count := e.failure_count + 1 }) entries
  else
    evict (entries ++ [{
      tool := tool
      app := app
      window := match window with
        | some s => if s = "" then "unknown" else s
        | none => "unknown"
      method_failed := method
      method_worked := none
      error_message := error
      params := params.filter (fun kv => kv.1 ∈ failureParamKeys)
      timestamp := now
      success_count := 0
      failure_count := 1 }])

/-- The matching condition of `ErrorJournal.record_success`: an entry for
the same tool and normalized app whose `method_failed` is truthy (a
non-empty string) and differs from the succeeding method. -/
def succMatches (tool app method : String) (e : JEntry) : Bool :=
  e.tool == tool && e.app == app &&
    e.method_failed != "" && e.method_failed != method

/-- `ErrorJournal.record_success`.  The code walks the entry list in
reverse and mutates the first match it finds (the most recent one); with
no match the journal is left untouched. -/
def record_success (entries : List JEntry) (tool : String)
    (window : Option String) (method : String) (now : List Char) :
    List JEntry :=
  let app := normalize_window window
  let p := succMatches tool app method
  if entries.reverse.any p then
    (updateFirst p
      (fun e => { e with
        method_worked := some method
        success_count := e.success_count + 1
        timestamp := now }) entries.reverse).reverse
  else entries

/-- Truthiness of the `method_worked` field (`None` and `""` are falsy). -/
def workedTruthy (e : JEntry) : Bool :=
  match e.method_worked with
  | some m => m != ""
  | none => false

/-- `ErrorJournal.get_best_method`. -/
def get_best_method (entries : List JEntry) (tool : String)
    (window : Option String) : Option String :=
  let app := normalize_window window
  let best := entries.foldl
    (fun acc e =>
      if e.tool == tool && e.app == app && workedTruthy e &&
          decide (0 < e.success_count) then
        match acc with
        | none => some e
        | some b =>
          if b.success_count < e.success_count then some e else some b
      else acc)
    none
  best.bind (fun b => b.method_worked)

/-- One recorded journal operation, for provenance reasoning. -/
inductive JOp where
  | fail (tool : String) (window : Option String) (method error : String)
      (params : List (String × String)) (now : List Char)
  | succ (tool : String) (window : Option String) (method : String)
      (now : List Char)
deriving DecidableEq

/-- Apply a journal operation to the stored entry list. -/
def applyOp (entries : List JEntry) : JOp → List JEntry
  | .fail tool window method error params now =>
    record_failure entries tool window method error params now
  | .succ tool window method now =>
    record_success entries tool window method now

/-- Run a sequence of journal operations from the empty journal. -/
def runOps (ops : List JOp) : List JEntry := ops.foldl applyOp []

/-- Whether an operation records a failure for the given tool and
normalized app. -/
def isFailFor (tool app : String) : JOp → Prop
  | .fail t w _ _ _ _ => t = tool ∧ normalize_window w = app
  | .succ _ _ _ _ => False

/-! ## Security configuration (`marlow/core/config.py`) -/

structure SecurityCfg where
  confirmation_mode : String
  kill_switch_hotkey : String
  kill_switch_enabled : Bool
  blocked_apps : List (List Char)
  blocked_commands : List (List Char)
  max_actions_per_minute : Nat
deriving Repr

/-- The `SecurityConfig` defaults of `marlow/core/config.py`. -/
def defaultSecurityCfg : SecurityCfg where
  confirmation_mode := "all"
  kill_switch_hotkey := "ctrl+shift+escape"
  kill_switch_enabled := true
  blocked_apps :=
    [str "chase", str "bankofamerica", str "wellsfargo", str "citi",
     str "capital one", str "paypal", str "venmo", str "zelle",
     str "cashapp", str "coinbase", str "robinhood", str "1password",
     str "lastpass", str "bitwarden", str "keepass", str "dashlane",
     str "authenticator", str "authy", str "yubikey",
     str "windows security", str "defender", str "firewall"]
  blocked_commands :=
    [str "format", str "del /f", str "del /s", str "rmdir /s",
     str "rm -rf", str "shutdown", str "restart", str "reg delete",
     str "bcdedit", str "cipher /w", str "diskpart", str "sfc",
     str "dism", str "net user", str "net localgroup", str "netsh",
     str "powershell -encodedcommand", str "powershell -enc",
     str "invoke-webrequest", str "invoke-restmethod",
     str "set-executionpolicy", str "new-service"]
  max_actions_per_minute := 30

/-! ## Safety engine (`marlow/core/safety.py`) -/

/-- A tool-call parameter mapping; values are the strings the checks apply
`str(...)` to. -/
def Params := List (String × List Char)

/-- `params.get(key)` as used by the checks. -/
def lookupParam (params : Params) (k : String) : Option (List Char) :=
  (params.find? (fun kv => kv.1 == k)).map (fun kv => kv.2)

/-- An entry of the audit log (`ActionRecord`). -/
structure ActionRecord where
  tool : String
  action : List Char
  params : Params
  approved : Bool
  result : String
  reason : Option (List Char)

/-- Keys whose (binary) values are dropped from logged params. -/
def binaryParamKeys : List String := ["screenshot_data", "image_data"]

/-- `SafetyEngine._log_action`'s params filtering. -/
def logParams (params : Params) : Params :=
  params.filter (fun kv => decide (kv.1 ∉ binaryParamKeys))

/-- The mutable engine state: kill flag, rate-limit timestamps, audit log.
`T` is the time domain (`time.time()` values). -/
structure SafetyState (T : Type) where
  killed : Bool
  action_timestamps : List T
  action_log : List ActionRecord

/-- The state of a freshly constructed `SafetyEngine`. -/
def initState (T : Type) : SafetyState T where
  killed := false
  action_timestamps := []
  action_log := []

/-- Append an `ActionRecord` (`SafetyEngine._log_action`). -/
def logAction {T : Type} (st : SafetyState T) (tool : String)
    (action : List Char) (params : Params) (approved : Bool)
    (result : String) (reason : Option (List Char)) : SafetyState T :=
  { st with action_log := st.action_log ++
      [⟨tool, action, logParams params, approved, result, reason⟩] }

/-- The param keys scanned by `SafetyEngine._check_blocked_app`. -/
def appCheckKeys : List String :=
  ["window_title", "app_name", "process_name", "title", "name"]

/-- `SafetyEngine._check_blocked_app`: the first blocked substring found in
any present, truthy app-identifying param value or in the action string,
all compared lowercased. -/
def check_blocked_app (cfg : SecurityCfg) (action : List Char)
    (params : Params) : Option (List Char) :=
  let checkValues :=
    (appCheckKeys.filterMap (fun k =>
      match lookupParam params k with
      | some v => if v = [] then none else some (lowerStr v)
      | none => none)) ++ [lowerStr action]
  checkValues.findSome? (fun v =>
    cfg.blocked_apps.find? (fun b => decide (lowerStr b <:+: v)))

/-- `SafetyEngine._check_blocked_command`: the first blocked pattern that is
a substring of the lowercased, stripped command, if a truthy command param
is present. -/
def check_blocked_command (cfg : SecurityCfg) (params : Params) :
    Option (List Char) :=
  match lookupParam params "command" with
  | none => none
  | some cmd =>
    if cmd = [] then none
    else
      let commandLower := pyStrip (lowerStr cmd)
      cfg.blocked_commands.find? (fun b => decide (lowerStr b <:+: commandLower))

/-- The sensitive tool set of `SafetyEngine._is_sensitive_action`. -/
def sensitiveTools : List String :=
  ["run_command", "open_application", "manage_window", "type_text",
   "clipboard", "run_app_script", "schedule_task", "watch_folder",
   "workflow_run"]

/-- The sensitive action keywords of `SafetyEngine._is_sensitive_action`. -/
def sensitiveActions : List (List Char) :=
  [str "close", str "delete", str "remove", str "kill", str "terminate",
   str "write", str "paste", str "send"]

/-- `SafetyEngine._is_sensitive_action`. -/
def is_sensitive_action (tool : String) (action : List Char) : Bool :=
  decide (tool ∈ sensitiveTools) ||
    sensitiveActions.any (fun s => decide (s <:+: lowerStr action))

/-- Rejection / approval messages returned by `approve_action`. -/
def msgKilled : List Char :=
  str "🛑 Kill switch is active. Use reset_kill_switch to resume."

def msgBlockedApp (b : List Char) : List Char :=
  str "🚫 Blocked: '" ++ b ++
    str "' is a protected application. Marlow will never interact with banking, password managers, or security apps."

def msgBlockedCmd (b : List Char) : List Char :=
  str "🚫 Blocked: '" ++ b ++
    str "' is a destructive command and is not allowed."

def msgRateLimit (n : Nat) : List Char :=
  str "⏱️ Rate limit: Maximum " ++ (toString n).data ++
    str " actions/minute exceeded. Wait a moment."

def msgBlockMode : List Char :=
  str "🚫 Block mode active — all automation is disabled. Change confirmation_mode to 'all', 'sensitive', or 'autonomous' to allow actions."

def msgApproved : List Char := str "✅ Approved"

/-- `SafetyEngine.approve_action`: the gate, with its five checks applied
in order, the rate-limit prune, and the audit-log writes.  Returns the
`(approved, reason)` pair together with the updated engine state. -/
def approve_action {T : Type} [LinearOrderedCommRing T] (cfg : SecurityCfg)
    (st : SafetyState T) (tool : String) (action : List Char)
    (params : Params) (now : T) : (Bool × List Char) × SafetyState T :=
  if st.killed then
    ((false, msgKilled),
      logAction st tool action params false "killed"
        (some (str "Kill switch is active")))
  else
    match check_blocked_app cfg action params with
    | some b =>
      ((false, msgBlockedApp b),
        logAction st tool action params false "blocked"
          (some (str "Blocked app: " ++ b)))
    | none =>
      match check_blocked_command cfg params with
      | some b =>
        ((false, msgBlockedCmd b),
          logAction st tool action params false "blocked"
            (some (str "Blocked command: " ++ b)))
      | none =>
        -- `_check_rate_limit` prunes the timestamp list as a side effect.
        let pruned := st.action_timestamps.filter
          (fun t => decide (now - t < 60))
        let st1 := { st with action_timestamps := pruned }
        if pruned.length < cfg.max_actions_per_minute then
          if cfg.confirmation_mode = "block" then
            ((false, msgBlockMode),
              logAction st1 tool action params false "blocked"
                (some (str "Block mode active — all automation disabled")))
          else
            let needsConfirmation :=
              cfg.confirmation_mode = "all" ∨
                (cfg.confirmation_mode = "sensitive" ∧
                  is_sensitive_action tool action = true)
            let st2 := if needsConfirmation then
                logAction st1 tool action params true "confirmed"
                  (some (str "Confirmation mode '" ++ cfg.confirmation_mode.data
                    ++ str "' — action shown to user via MCP client"))
              else st1
            let st3 := { st2 with
              action_timestamps := st2.action_timestamps ++ [now] }
            ((true, msgApproved),
              logAction st3 tool action params true "success" none)
        else
          ((false, msgRateLimit cfg.max_actions_per_minute),
            logAction st1 tool action params false "blocked"
              (some (str "Rate limit exceeded")))

/-! ## Tool dispatcher (`marlow/server.py`) -/

/-- Observable dispatcher events, in the order they happen during a call. -/
inductive Ev where
  | save
  | restore
  | killHandled
  | gateCheck
  | dispatch
deriving DecidableEq, Repr

/-- `_handle_kill_switch`: dispatched before the safety gate, it acts in
every engine state. -/
def handle_kill_switch {T : Type} (st : SafetyState T) (args : Params) :
    SafetyState T × List Char :=
  let action := (lookupParam args "action").getD (str "status")
  if action = str "activate" then
    ({ st with killed := true },
      str "🛑 KILL SWITCH ACTIVATED — All Marlow automation has been stopped.\nUse kill_switch(action='reset') to resume.")
  else if action = str "reset" then
    ({ st with killed := false },
      str "✅ Kill switch reset — Marlow automation can resume.")
  else
    (st, str "kill switch status")

/-- Result of `_call_tool_inner`: the events that happened and the textual
response.  `toolResult` stands for the (opaque) body result text. -/
structure InnerResult where
  events : List Ev
  response : List Char

/-- `_call_tool_inner`: the kill-switch tool is routed before the safety
gate; every other tool passes `approve_action`, and its body runs only on
approval. -/
def call_tool_inner {T : Type} [LinearOrderedCommRing T] (cfg : SecurityCfg)
    (st : SafetyState T) (name : String) (args : Params) (now : T)
    (toolResult : List Char) : InnerResult × SafetyState T :=
  if name = "kill_switch" then
    (⟨[Ev.killHandled], (handle_kill_switch st args).2⟩,
      (handle_kill_switch st args).1)
  else if (approve_action cfg st name name.data args now).1.1 then
    (⟨[Ev.gateCheck, Ev.dispatch], toolResult⟩,
      (approve_action cfg st name name.data args now).2)
  else
    (⟨[Ev.gateCheck], (approve_action cfg st name name.data args now).1.2⟩,
      (approve_action cfg st name name.data args now).2)

/-- The tools exempt from the focus save/restore in `call_tool`. -/
def focusExempt (name : String) : Bool :=
  name == "focus_window" || name == "restore_user_focus"

/-- `call_tool`: save the user focus unless the tool is focus-exempt, run
the inner dispatcher, and restore the focus in a `finally` block. -/
def call_tool {T : Type} [LinearOrderedCommRing T] (cfg : SecurityCfg)
    (st : SafetyState T) (name : String) (args : Params) (now : T)
    (toolResult : List Char) : (List Ev × List Char) × SafetyState T :=
  let (inner, st') := call_tool_inner cfg st name args now toolResult
  (((if focusExempt name then [] else [Ev.save]) ++ inner.events ++
      (if focusExempt name then [] else [Ev.restore]),
    inner.response), st')

/-! ## Workflow replay (`marlow/core/workflows.py`) -/

/-- A recorded workflow step. -/
structure WStep where
  tool : String
  params : Params
  delay_ms : Int

/-- Outcome of dispatching one step (`dispatch_fn`): a result that is a
dict without/with an `error` key, or a raised exception. -/
inductive DispatchOutcome where
  | ok (success : Bool)
  | exn (msg : List Char)
deriving DecidableEq

/-- One per-step entry of the `results` list built by `workflow_run`. -/
structure StepResult where
  step : Nat
  tool : String
  status : String
  reason : Option (List Char)

/-- The dictionary returned by `workflow_run`. -/
structure WfRunResult where
  success : Bool
  completed_steps : Nat
  total_steps : Nat
  results : List StepResult
  stopped_reason : Option String

/-- The replay loop of `workflow_run`, instrumented with the list of step
indices that were actually dispatched.  `killAt i` is the kill state read
before step `i`; `approveAt i` the safety-gate verdict for step `i`;
`dispatchAt i` the dispatch outcome of step `i`. -/
def wfGo (total : Nat) (killAt : Nat → Bool)
    (approveAt : Nat → Bool × List Char) (dispatchAt : Nat → DispatchOutcome) :
    Nat → List WStep → List StepResult → WfRunResult × List Nat
  | i, [], acc =>
    (⟨true, i, total, acc.reverse, none⟩, [])
  | i, s :: rest, acc =>
    if killAt i then
      (⟨false, i, total,
        (⟨i + 1, s.tool, "skipped", some (str "kill_switch_active")⟩ :: acc).reverse,
        some "kill_switch"⟩, [])
    else if (approveAt i).1 = false then
      (⟨false, i, total,
        (⟨i + 1, s.tool, "blocked", some (approveAt i).2⟩ :: acc).reverse,
        some "safety_blocked"⟩, [])
    else
      match dispatchAt i with
      | .exn m =>
        (⟨false, i, total,
          (⟨i + 1, s.tool, "error", some m⟩ :: acc).reverse,
          some "exception"⟩, [i])
      | .ok success =>
        if success then
          ((wfGo total killAt approveAt dispatchAt (i + 1) rest
              (⟨i + 1, s.tool, "ok", none⟩ :: acc)).1,
            i :: (wfGo total killAt approveAt dispatchAt (i + 1) rest
              (⟨i + 1, s.tool, "ok", none⟩ :: acc)).2)
        else
          (⟨false, i, total,
            (⟨i + 1, s.tool, "error", none⟩ :: acc).reverse,
            some "step_failed"⟩, [i])

/-- `workflow_run` on a loaded workflow's steps. -/
def workflow_run (steps : List WStep) (killAt : Nat → Bool)
    (approveAt : Nat → Bool × List Char)
    (dispatchAt : Nat → DispatchOutcome) : WfRunResult × List Nat :=
  wfGo steps.length killAt approveAt dispatchAt 0 steps []

/-! ## Escalating resolver (`marlow/core/escalation.py`) -/

/-- A candidate returned by `find_element_enhanced`, ranked best-first. -/
structure Candidate where
  name : String
  control_type : String
  automation_id : String
  property_matched : String
  score : ℚ
  bbox : String
  element : Nat

/-- The info dictionary built from a candidate. -/
structure ElementInfo where
  name : String
  control_type : String
  automation_id : String
  property_matched : String
  score : ℚ
  bbox : String

def candInfo (c : Candidate) : ElementInfo :=
  ⟨c.name, c.control_type, c.automation_id, c.property_matched, c.score, c.bbox⟩

/-- The dictionary returned by `_try_uia` (the `hint` field is tracked as
a presence flag). -/
structure UiaResult where
  found : Bool
  element_info : Option ElementInfo
  element_ref : Option Nat
  partial_matches : Option (List ElementInfo)
  hint : Bool

/-- `_try_uia` applied to the ranked candidate list. -/
def try_uia (candidates : List Candidate) : UiaResult :=
  match candidates with
  | [] => ⟨false, none, none, none, false⟩
  | best :: _ =>
    if 8/10 < best.score then
      ⟨true, some (candInfo best), some best.element, none, false⟩
    else if 6/10 ≤ best.score then
      ⟨true, some (candInfo best), some best.element,
        some (candidates.map candInfo), true⟩
    else ⟨false, none, none, none, false⟩

/-- The observable outcome of `smart_find`, given the journal verdict and
the per-tier outcomes. -/
structure SmartFindOutcome where
  success : Bool
  found : Bool
  method : Option String
  methods_tried : List String
  requires_vision : Bool

/-- `smart_find`: UIA (skipped when the journal says it fails), then OCR,
then the screenshot fallback for vision. -/
def smart_find (journalBest : Option String) (uia : UiaResult)
    (ocrFound : Bool) (screenshotOk : Bool) : SmartFindOutcome :=
  let skipUia := journalBest == some "ocr"
  if !skipUia && uia.found then
    ⟨true, true, some "ui_automation", ["ui_automation"], false⟩
  else
    if ocrFound then
      ⟨true, true, some "ocr", ["ui_automation", "ocr"], false⟩
    else if screenshotOk then
      ⟨true, false, some "screenshot", ["ui_automation", "ocr", "screenshot"],
        true⟩
    else
      ⟨false, false, none, ["ui_automation", "ocr", "screenshot"], false⟩

/-! ## Sandbox script validator (`marlow/tools/app_script.py`)

The Python abstract syntax fragment the validator walks: expressions with
names, attribute access, calls, and compound containers; statements with
the import forms, assignments, expression statements and control flow. -/

mutual
inductive PyExpr where
  | const : PyExpr
  | name (id : String) : PyExpr
  | attr (value : PyExpr) (attrName : String) : PyExpr
  | call (func : PyExpr) (args : PyExprList) : PyExpr
  | binop (l r : PyExpr) : PyExpr
  | subscript (v idx : PyExpr) : PyExpr
inductive PyExprList where
  | nil : PyExprList
  | cons (e : PyExpr) (es : PyExprList) : PyExprList
end

mutual
inductive PyStmt where
  | importStmt : PyStmt
  | importFrom : PyStmt
  | exprStmt (e : PyExpr) : PyStmt
  | assign (target : String) (e : PyExpr) : PyStmt
  | ifStmt (cond : PyExpr) (body orelse : PyStmtList) : PyStmt
  | whileStmt (cond : PyExpr) (body : PyStmtList) : PyStmt
  | forStmt (target : String) (iter : PyExpr) (body : PyStmtList) : PyStmt
inductive PyStmtList where
  | nil : PyStmtList
  | cons (s : PyStmt) (ss : PyStmtList) : PyStmtList
end

/-- `_FORBIDDEN_NAMES`. -/
def forbiddenNames : List String :=
  ["eval", "exec", "compile", "execfile", "__import__", "open", "input",
   "globals", "locals", "vars", "dir", "getattr", "setattr", "delattr",
   "hasattr", "type", "super", "classmethod", "staticmethod", "property",
   "memoryview", "bytearray", "breakpoint", "exit", "quit", "help"]

/-- `_FORBIDDEN_ATTRS`. -/
def forbiddenAttrs : List String :=
  ["__class__", "__bases__", "__subclasses__", "__mro__", "__builtins__",
   "__globals__", "__code__", "__func__", "__self__", "__dict__",
   "__init_subclass__", "__import__", "__loader__", "__spec__",
   "__reduce__", "__reduce_ex__"]

/-- `_FORBIDDEN_MODULE_PREFIXES`. -/
def forbiddenModules : List String :=
  ["os", "sys", "subprocess", "shutil", "pathlib", "importlib", "ctypes",
   "socket", "http", "urllib", "pickle", "shelve", "tempfile", "glob",
   "signal"]

/-- The `visit_Attribute` check for dangerous module access
(`os.system`-style): fires when the attribute's value is a bare name in
the forbidden-modules set. -/
def moduleAttrErrs (v : PyExpr) (a : String) : List String :=
  match v with
  | .name id =>
    if id ∈ forbiddenModules then
      ["accessing '" ++ id ++ "." ++ a ++ "' is forbidden"]
    else []
  | _ => []

/-- The `visit_Call` check for direct calls to forbidden builtins: fires
when the callee is a bare name in the forbidden-names set. -/
def callNameErrs (f : PyExpr) : List String :=
  match f with
  | .name id =>
    if id ∈ forbiddenNames then ["calling '" ++ id ++ "()' is forbidden"]
    else []
  | _ => []

/- The errors collected by `_ScriptValidator` while visiting an
expression (`visit_Call`, `visit_Attribute`, `visit_Name`, each followed
by `generic_visit`). -/
mutual
def errsExpr : PyExpr → List String
  | .const => []
  | .name id =>
    if id ∈ forbiddenModules then ["referencing '" ++ id ++ "' is forbidden"]
    else []
  | .attr v a =>
    (if a ∈ forbiddenAttrs then ["accessing '" ++ a ++ "' is forbidden"]
     else []) ++ moduleAttrErrs v a ++ errsExpr v
  | .call f args => callNameErrs f ++ errsExpr f ++ errsExprList args
  | .binop l r => errsExpr l ++ errsExpr r
  | .subscript v idx => errsExpr v ++ errsExpr idx
def errsExprList : PyExprList → List String
  | .nil => []
  | .cons e es => errsExpr e ++ errsExprList es
end

/- The errors collected while visiting statements (`visit_Import`,
`visit_ImportFrom`, and the generic traversal of nested nodes). -/
mutual
def errsStmt : PyStmt → List String
  | .importStmt => ["import statements are forbidden"]
  | .importFrom => ["from...import statements are forbidden"]
  | .exprStmt e => errsExpr e
  | .assign _ e => errsExpr e
  | .ifStmt c b o => errsExpr c ++ errsStmtList b ++ errsStmtList o
  | .whileStmt c b => errsExpr c ++ errsStmtList b
  | .forStmt _ it b => errsExpr it ++ errsStmtList b
def errsStmtList : PyStmtList → List String
  | .nil => []
  | .cons s ss => errsStmt s ++ errsStmtList ss
end

/-- `_validate_script` on a parsed module: the collected error list
(empty = valid). -/
def validate_script (m : PyStmtList) : List String := errsStmtList m

/- All expression subnodes of an expression (including itself). -/
mutual
def exprNodes : PyExpr → List PyExpr
  | .const => [.const]
  | .name id => [.name id]
  | .attr v a => .attr v a :: exprNodes v
  | .call f args => .call f args :: (exprNodes f ++ exprListNodes args)
  | .binop l r => .binop l r :: (exprNodes l ++ exprNodes r)
  | .subscript v idx => .subscript v idx :: (exprNodes v ++ exprNodes idx)
def exprListNodes : PyExprList → List PyExpr
  | .nil => []
  | .cons e es => exprNodes e ++ exprListNodes es
end

/- All statement subnodes and all expression subnodes of statements. -/
mutual
def stmtNodes : PyStmt → List PyStmt
  | .importStmt => [.importStmt]
  | .importFrom => [.importFrom]
  | .exprStmt e => [.exprStmt e]
  | .assign t e => [.assign t e]
  | .ifStmt c b o => .ifStmt c b o :: (stmtListNodes b ++ stmtListNodes o)
  | .whileStmt c b => .whileStmt c b :: stmtListNodes b
  | .forStmt t it b => .forStmt t it b :: stmtListNodes b
def stmtListNodes : PyStmtList → List PyStmt
  | .nil => []
  | .cons s ss => stmtNodes s ++ stmtListNodes ss
end

mutual
def stmtExprs : PyStmt → List PyExpr
  | .importStmt => []
  | .importFrom => []
  | .exprStmt e => exprNodes e
  | .assign _ e => exprNodes e
  | .ifStmt c b o => exprNodes c ++ stmtListExprs b ++ stmtListExprs o
  | .whileStmt c b => exprNodes c ++ stmtListExprs b
  | .forStmt _ it b => exprNodes it ++ stmtListExprs b
def stmtListExprs : PyStmtList → List PyExpr
  | .nil => []
  | .cons s ss => stmtExprs s ++ stmtListExprs ss
end

/-- Whether a statement node is one of the import forms. -/
def isImportNode : PyStmt → Bool
  | .importStmt => true
  | .importFrom => true
  | _ => false

/-- Attribute access through a forbidden module, as a flag. -/
def moduleAttrFlag (v : PyExpr) : Bool :=
  match v with
  | .name id => decide (id ∈ forbiddenModules)
  | _ => false

/-- A direct call to a forbidden builtin name, as a flag. -/
def callNameFlag (f : PyExpr) : Bool :=
  match f with
  | .name id => decide (id ∈ forbiddenNames)
  | _ => false

/-- Whether an expression node is, by itself, one of the forbidden
constructs: a call to a forbidden builtin name, an attribute access with a
forbidden dunder name, an attribute access through a forbidden module, or
a bare reference to a forbidden module. -/
def isForbiddenExprNode : PyExpr → Bool
  | .name id => decide (id ∈ forbiddenModules)
  | .attr v a => decide (a ∈ forbiddenAttrs) || moduleAttrFlag v
  | .call f _ => callNameFlag f
  | _ => false

/-- The spec's notion of a script containing a forbidden construct,
stated over the set of syntax-tree nodes rather than over the validator's
traversal. -/
def ContainsForbidden (m : PyStmtList) : Prop :=
  (∃ s ∈ stmtListNodes m, isImportNode s = true) ∨
    (∃ e ∈ stmtListExprs m, isForbiddenExprNode e = true)

/-- `SUPPORTED_APPS` keys. -/
def supportedApps : List String :=
  ["word", "excel", "powerpoint", "outlook", "photoshop", "access"]

/-- Result of `run_app_script`. -/
inductive RunOutcome where
  | errorUnsupported
  | errorValidation (issues : List String)
  | executed (execResult : Bool)

def isErrorOutcome : RunOutcome → Bool
  | .executed _ => false
  | _ => true

/-- `run_app_script` up to the sandboxed execution, which is abstracted by
`execResult`; the boolean reports whether execution was reached. -/
def run_app_script (app_name : String) (script : PyStmtList)
    (execResult : Bool) : RunOutcome × Bool :=
  let appLower := String.mk (pyStrip (lowerStr app_name.data))
  if appLower ∉ supportedApps then (.errorUnsupported, false)
  else
    match validate_script script with
    | [] => (.executed execResult, true)
    | _ => (.errorValidation (validate_script script), false)

/-! ## Output redactor (`marlow/core/sanitizer.py`)

The five configured `sensitive_patterns` of `marlow/core/config.py` are
concrete regular expressions; they are embedded as syntax trees and
matched with a backtracking matcher that mirrors the Python `re`
semantics relevant to them: leftmost match, greedy quantifiers,
alternatives tried left to right, and `\b` word boundaries. -/

/-- The regular-expression fragment used by the configured patterns.
`starCls` is a greedy `*` over a character class (the only unbounded
repetition the patterns use). -/
inductive Rx where
  | eps : Rx
  | cls (p : Char → Bool) : Rx
  | seq (a b : Rx) : Rx
  | alt (a b : Rx) : Rx
  | opt (r : Rx) : Rx
  | repExact (r : Rx) (n : Nat) : Rx
  | starCls (p : Char → Bool) : Rx
  | wordB : Rx

/-- Python `\w` on the ASCII fragment. -/
def isWordChar (c : Char) : Bool := c.isAlphanum || c = '_'

/-- `\b`: the word-ness of the character before and after the position
differ.  `left` is the reversed already-consumed prefix. -/
def atBoundary (left rest : List Char) : Bool :=
  (match left with
   | [] => false
   | c :: _ => isWordChar c) !=
  (match rest with
   | [] => false
   | c :: _ => isWordChar c)

/-- `{n}` repetition of a matcher, with the same suffix-priority
convention; `m` is the single-copy matcher. -/
def mrxRep (m : List Char → List Char → List (List Char)) :
    Nat → List Char → List Char → List (List Char)
  | 0, _, rest => [rest]
  | n + 1, left, rest =>
    (m left rest).flatMap (fun r' =>
      mrxRep m n ((rest.take (rest.length - r'.length)).reverse ++ left) r')

/-- The matcher: all ways the expression can match a prefix of `rest`,
as the list of remaining suffixes in backtracking priority order (the
head is the alternative Python's engine commits to). -/
def mrx : Rx → List Char → List Char → List (List Char)
  | .eps, _, rest => [rest]
  | .cls p, _, rest =>
    match rest with
    | [] => []
    | c :: cs => if p c then [cs] else []
  | .seq a b, left, rest =>
    (mrx a left rest).flatMap (fun r' =>
      mrx b ((rest.take (rest.length - r'.length)).reverse ++ left) r')
  | .alt a b, left, rest => mrx a left rest ++ mrx b left rest
  | .opt r, left, rest => mrx r left rest ++ [rest]
  | .repExact r n, left, rest => mrxRep (mrx r) n left rest
  | .starCls p, _, rest =>
    (List.range ((rest.takeWhile p).length + 1)).reverse.map
      (fun i => rest.drop i)
  | .wordB, left, rest => if atBoundary left rest then [rest] else []

/-- A literal character. -/
def chr (c : Char) : Rx := .cls (fun x => x = c)

/-- A case-insensitive literal, as produced by `(?i)` on ASCII letters. -/
def litCI (s : String) : Rx :=
  s.data.foldr (fun c acc => .seq (.cls (fun x => x.toLower = c.toLower)) acc)
    .eps

/-- Sequencing of a pattern list. -/
def seqList (rs : List Rx) : Rx := rs.foldr .seq .eps

/-- `\d`. -/
def digitCls : Char → Bool := fun c => c.isDigit

/-- `[\s\-]`. -/
def wsDash : Char → Bool := fun c => isPySpace c || c = '-'

/-- `[A-Za-z0-9._%+\-]` (e-mail local part). -/
def emailLocalCls : Char → Bool := fun c =>
  c.isAlpha || c.isDigit || c = '.' || c = '_' || c = '%' || c = '+' || c = '-'

/-- `[A-Za-z0-9.\-]` (e-mail domain). -/
def emailDomainCls : Char → Bool := fun c =>
  c.isAlpha || c.isDigit || c = '.' || c = '-'

/-- `[A-Z|a-z]` — the character class of the configured e-mail pattern's
top-level-domain part (it literally contains `|`). -/
def tldCls : Char → Bool := fun c => c.isAlpha || c = '|'

/-- `\b\d{4}[\s\-]?\d{4}[\s\-]?\d{4}[\s\-]?\d{4}\b` (`credit_card`). -/
def ccRx : Rx := seqList
  [.wordB, .repExact (.cls digitCls) 4, .opt (.cls wsDash),
   .repExact (.cls digitCls) 4, .opt (.cls wsDash),
   .repExact (.cls digitCls) 4, .opt (.cls wsDash),
   .repExact (.cls digitCls) 4, .wordB]

/-- `\b\d{3}-\d{2}-\d{4}\b` (`ssn`). -/
def ssnRx : Rx := seqList
  [.wordB, .repExact (.cls digitCls) 3, chr '-', .repExact (.cls digitCls) 2,
   chr '-', .repExact (.cls digitCls) 4, .wordB]

/-- `\b[A-Za-z0-9._%+\-]+@[A-Za-z0-9.\-]+\.[A-Z|a-z]{2,}\b` (`email`). -/
def emailRx : Rx := seqList
  [.wordB, .cls emailLocalCls, .starCls emailLocalCls, chr '@',
   .cls emailDomainCls, .starCls emailDomainCls, chr '.',
   .repExact (.cls tldCls) 2, .starCls tldCls, .wordB]

/-- `\b(\+1[\s\-]?)?\(?\d{3}\)?[\s\-]?\d{3}[\s\-]?\d{4}\b` (`phone_us`). -/
def phoneRx : Rx := seqList
  [.wordB, .opt (seqList [chr '+', chr '1', .opt (.cls wsDash)]),
   .opt (chr '('), .repExact (.cls digitCls) 3, .opt (chr ')'),
   .opt (.cls wsDash), .repExact (.cls digitCls) 3, .opt (.cls wsDash),
   .repExact (.cls digitCls) 4, .wordB]

/-- `(?i)(password|passwd|pwd|secret|token|api[_\-]?key)`
(`password_field`). -/
def passwordRx : Rx :=
  .alt (litCI "password") (.alt (litCI "passwd") (.alt (litCI "pwd")
    (.alt (litCI "secret") (.alt (litCI "token")
      (seqList [litCI "api", .opt (.cls (fun c => c = '_' || c = '-')),
        litCI "key"])))))

/-- `re.subn` scanning loop: walk the subject left to right; at each
position take the engine's first match; a non-empty match is replaced and
scanning resumes after it; with no match the character is kept.  (The
zero-width branch mirrors Python's advance-by-one; the configured patterns
never match the empty string.)  Returns the rewritten text and the number
of replacements. -/
def subnGo (r : Rx) (repl : List Char) :
    Nat → List Char → List Char → List Char × Nat
  | 0, _, rest => (rest, 0)
  | _ + 1, left, [] =>
    match (mrx r left []).head? with
    | some _ => (repl, 1)
    | none => ([], 0)
  | fuel + 1, left, c :: cs =>
    match (mrx r left (c :: cs)).head? with
    | some r' =>
      if (c :: cs).length - r'.length ≠ 0 then
        (repl ++ (subnGo r repl fuel
            (((c :: cs).take ((c :: cs).length - r'.length)).reverse ++ left)
            r').1,
          (subnGo r repl fuel
            (((c :: cs).take ((c :: cs).length - r'.length)).reverse ++ left)
            r').2 + 1)
      else
        (repl ++ c :: (subnGo r repl fuel (c :: left) cs).1,
          (subnGo r repl fuel (c :: left) cs).2 + 1)
    | none =>
      ((c :: (subnGo r repl fuel (c :: left) cs).1),
        (subnGo r repl fuel (c :: left) cs).2)

/-- `pattern.subn(replacement, s)`. -/
def pySubn (r : Rx) (repl : List Char) (s : List Char) : List Char × Nat :=
  subnGo r repl (s.length + 1) [] s

/-- The configured `sensitive_patterns` with their replacement markers, in
the insertion order of `SecurityConfig.sensitive_patterns` (the order
`DataSanitizer.sanitize` applies them in). -/
def sensitivePatterns : List (Rx × List Char) :=
  [(ccRx, str "[CREDIT-CARD-REDACTED]"),
   (ssnRx, str "[SSN-REDACTED]"),
   (emailRx, str "[EMAIL-REDACTED]"),
   (phoneRx, str "[PHONE-REDACTED]"),
   (passwordRx, str "[PASSWORD-FIELD]")]

/-- `DataSanitizer.sanitize`. -/
def sanitize (s : List Char) : List Char :=
  if s = [] then s
  else sensitivePatterns.foldl (fun acc pr => (pySubn pr.1 pr.2 acc).1) s

/-- Whether the pattern matches starting at some position of `s`, i.e.
whether some substring of `s` matches it. -/
def hasMatchGo (r : Rx) : List Char → List Char → Bool
  | left, [] => ((mrx r left []).head?).isSome
  | left, c :: cs =>
    ((mrx r left (c :: cs)).head?).isSome || hasMatchGo r (c :: left) cs

/-- Some substring of `s` matches the pattern. -/
def hasMatch (r : Rx) (s : List Char) : Bool := hasMatchGo r [] s

/-! ## Facts about the journal comparator -/

theorem lexLe_total : ∀ x y : List Char, lexLe x y = true ∨ lexLe y x = true
  | [], _ => Or.inl rfl
  | _ :: _, [] => Or.inr rfl
  | a :: as, b :: bs => by
    by_cases hab : a = b
    · subst hab
      simpa [lexLe] using lexLe_total as bs
    · rcases lt_or_gt_of_ne hab with h | h
      · exact Or.inl (by simp [lexLe, hab, h])
      · exact Or.inr (by simp [lexLe, Ne.symm hab, h])

theorem lexLe_trans : ∀ x y z : List Char,
    lexLe x y = true → lexLe y z = true → lexLe x z = true
  | [], _, _ => by intro _ _; rfl
  | a :: as, [], _ => by intro h; simp [lexLe] at h
  | a :: as, b :: bs, [] => by intro _ h; simp [lexLe] at h
  | a :: as, b :: bs, c :: cs => by
    intro h1 h2
    by_cases hab : a = b <;> by_cases hbc : b = c
    · subst hab; subst hbc
      simp only [lexLe, if_pos rfl] at h1 h2 ⊢
      exact lexLe_trans as bs cs h1 h2
    · subst hab
      simp only [lexLe, if_pos rfl] at h1
      simp only [lexLe, if_neg hbc] at h2 ⊢
      exact h2
    · subst hbc
      simp only [lexLe, if_neg hab] at h1 ⊢
      exact h1
    · simp only [lexLe, if_neg hab] at h1
      simp only [lexLe, if_neg hbc] at h2
      have hac : a < c := lt_trans (of_decide_eq_true h1) (of_decide_eq_true h2)
      have : a ≠ c := ne_of_lt hac
      simp [lexLe, this, hac]

theorem entryGE_total (a b : JEntry) : entryGE a b = true ∨ entryGE b a = true := by
  unfold entryGE
  rcases Nat.lt_trichotomy a.success_count b.success_count with h | h | h
  · exact Or.inr (by simp [h])
  · rcases lexLe_total b.timestamp a.timestamp with hl | hl
    · exact Or.inl (by simp [h, hl])
    · exact Or.inr (by simp [h, hl])
  · exact Or.inl (by simp [h])

theorem entryGE_trans (a b c : JEntry) (h1 : entryGE a b = true)
    (h2 : entryGE b c = true) : entryGE a c = true := by
  unfold entryGE at h1 h2 ⊢
  simp only [Bool.or_eq_true, Bool.and_eq_true, decide_eq_true_eq,
    beq_iff_eq] at h1 h2 ⊢
  rcases h1 with h1 | ⟨h1e, h1l⟩ <;> rcases h2 with h2 | ⟨h2e, h2l⟩
  · exact Or.inl (lt_trans h2 h1)
  · exact Or.inl (h2e ▸ h1)
  · exact Or.inl (h1e ▸ h2)
  · exact Or.inr ⟨h2e.trans h1e, lexLe_trans _ _ _ h2l h1l⟩

theorem entryGE_le_success {a b : JEntry} (h : entryGE a b = true) :
    b.success_count ≤ a.success_count := by
  unfold entryGE at h
  simp only [Bool.or_eq_true, Bool.and_eq_true, decide_eq_true_eq,
    beq_iff_eq] at h
  rcases h with h | ⟨he, _⟩
  · exact le_of_lt h
  · exact le_of_eq he

theorem updateFirst_length (p : JEntry → Bool) (f : JEntry → JEntry) :
    ∀ l : List JEntry, (updateFirst p f l).length = l.length := by
  intro l
  induction l with
  | nil => rfl
  | cons e es ih =>
    unfold updateFirst
    by_cases h : p e <;> simp [h, ih]

theorem evict_length (l : List JEntry) : (evict l).length ≤ maxEntries := by
  unfold evict
  by_cases hl : l.length ≤ maxEntries
  · rw [if_pos hl]
    exact hl
  · rw [if_neg hl]
    exact (List.length_take _ _).le.trans (min_le_left _ _)

theorem mem_updateFirst {p : JEntry → Bool} {f : JEntry → JEntry}
    {l : List JEntry} {x : JEntry} (h : x ∈ updateFirst p f l) :
    x ∈ l ∨ ∃ y ∈ l, x = f y := by
  induction l with
  | nil => simp [updateFirst] at h
  | cons e es ih =>
    unfold updateFirst at h
    by_cases hp : p e
    · rw [if_pos hp] at h
      rcases List.mem_cons.mp h with h | h
      · exact Or.inr ⟨e, List.mem_cons_self _ _, h⟩
      · exact Or.inl (List.mem_cons_of_mem _ h)
    · rw [if_neg hp] at h
      rcases List.mem_cons.mp h with h | h
      · exact Or.inl (h ▸ List.mem_cons_self _ _)
      · rcases ih h with h | ⟨y, hy, hxy⟩
        · exact Or.inl (List.mem_cons_of_mem _ h)
        · exact Or.inr ⟨y, List.mem_cons_of_mem _ hy, hxy⟩

theorem mem_evict {l : List JEntry} {x : JEntry} (h : x ∈ evict l) : x ∈ l := by
  unfold evict at h
  by_cases hl : l.length ≤ maxEntries
  · simpa [hl] using h
  · rw [if_neg hl] at h
    exact (List.mergeSort_perm l entryGE).mem_iff.mp (List.mem_of_mem_take h)

/-- C7, proved: after any record operation on a journal holding at most
500 entries, the journal still holds at most 500 entries; when eviction
sorts, the retained prefix is ordered by highest success count first with
recency (lexicographically larger ISO timestamp) breaking ties; and no
discarded entry has a success count exceeding that of any retained
entry. -/
theorem journal_eviction_bound_and_fairness :
    (∀ (es : List JEntry) (tool : String) (window : Option String)
        (method error : String) (params : List (String × String))
        (now : List Char), es.length ≤ maxEntries →
        (record_failure es tool window method error params now).length ≤
          maxEntries) ∧
    (∀ (es : List JEntry) (tool : String) (window : Option String)
        (method : String) (now : List Char), es.length ≤ maxEntries →
        (record_success es tool window method now).length ≤ maxEntries) ∧
    (∀ es : List JEntry, maxEntries < es.length →
        List.Pairwise (fun a b => entryGE a b = true) (evict es)) ∧
    (∀ (es : List JEntry) (d r : JEntry),
        d ∈ (es.mergeSort entryGE).drop maxEntries → r ∈ evict es →
        d.success_count ≤ r.success_count) := by
  refine ⟨?_, ?_, ?_, ?_⟩
  · intro es tool window method error params now hlen
    unfold record_failure
    by_cases hany : es.any (fun e =>
        e.tool == tool && e.app == normalize_window window &&
          e.method_failed == method)
    · rw [if_pos hany, updateFirst_length]
      exact hlen
    · rw [if_neg hany]
      exact evict_length _
  · intro es tool window method now hlen
    unfold record_success
    by_cases hany :
        es.reverse.any (succMatches tool (normalize_window window) method)
    · rw [if_pos hany, List.length_reverse, updateFirst_length,
        List.length_reverse]
      exact hlen
    · rw [if_neg hany]
      exact hlen
  · intro es hlen
    unfold evict
    rw [if_neg (not_le_of_lt hlen)]
    have hs := @List.sorted_mergeSort JEntry entryGE entryGE_trans
      (fun a b => by rcases entryGE_total a b with h | h <;> simp [h]) es
    exact hs.sublist (List.take_sublist _ _)
  · intro es d r hd hr
    by_cases hl : es.length ≤ maxEntries
    · have : (es.mergeSort entryGE).drop maxEntries = [] := by
        apply List.drop_eq_nil_of_le
        simpa [(List.mergeSort_perm es entryGE).length_eq] using hl
      rw [this] at hd
      simp at hd
    · unfold evict at hr
      rw [if_neg hl] at hr
      have hs := @List.sorted_mergeSort JEntry entryGE entryGE_trans
        (fun a b => by rcases entryGE_total a b with h | h <;> simp [h]) es
      have hsplit := List.take_append_drop maxEntries (es.mergeSort entryGE)
      rw [← hsplit] at hs
      have := (List.pairwise_append.mp hs).2.2 r hr d hd
      exact entryGE_le_success this

/-- A sample entry for exercising eviction at the 500-entry bound. -/
def sampleEntry : JEntry where
  tool := "click"
  app := "notepad"
  window := "Doc - Notepad"
  method_failed := "invoke"
  method_worked := none
  error_message := "element not found"
  params := []
  timestamp := str "2026-01-01T00:00:00"
  success_count := 0
  failure_count := 1

theorem journal_eviction_bound_and_fairness_witness :
    ([sampleEntry].length ≤ maxEntries ∧
      (record_failure [sampleEntry] "type_text" none "set_text" "err" []
        (str "2026-01-02T00:00:00")).length ≤ maxEntries) ∧
    ((record_success [sampleEntry] "click" (some "Doc - Notepad") "click_input"
        (str "2026-01-02T00:00:00")).length ≤ maxEntries) ∧
    (maxEntries < (List.replicate 501 sampleEntry).length ∧
      List.Pairwise (fun a b => entryGE a b = true)
        (evict (List.replicate 501 sampleEntry))) ∧
    sampleEntry.success_count ≤ sampleEntry.success_count := by
  have hms : (List.replicate 501 sampleEntry).mergeSort entryGE =
      List.replicate 501 sampleEntry :=
    List.perm_replicate.mp (List.mergeSort_perm _ entryGE)
  have hlen501 : (List.replicate 501 sampleEntry).length = 501 :=
    List.length_replicate _ _
  have hgt : maxEntries < (List.replicate 501 sampleEntry).length := by
    rw [hlen501]
    norm_num [maxEntries]
  have hd : sampleEntry ∈
      ((List.replicate 501 sampleEntry).mergeSort entryGE).drop maxEntries := by
    rw [hms, show maxEntries = 500 from rfl, List.drop_replicate]
    norm_num [List.mem_replicate]
  have hr : sampleEntry ∈ evict (List.replicate 501 sampleEntry) := by
    unfold evict
    rw [if_neg (not_le_of_lt hgt), hms, show maxEntries = 500 from rfl,
      List.take_replicate]
    norm_num [List.mem_replicate]
  refine ⟨⟨by decide, ?_⟩, ?_, ⟨hgt, ?_⟩, ?_⟩
  · exact journal_eviction_bound_and_fairness.1 [sampleEntry] "type_text" none
      "set_text" "err" [] (str "2026-01-02T00:00:00") (by decide)
  · exact journal_eviction_bound_and_fairness.2.1 [sampleEntry] "click"
      (some "Doc - Notepad") "click_input" (str "2026-01-02T00:00:00")
      (by decide)
  · exact journal_eviction_bound_and_fairness.2.2.1 _ hgt
  · exact journal_eviction_bound_and_fairness.2.2.2 _ _ _ hd hr

/-! ## Provenance of journal entries (claim C10) -/

theorem record_failure_provenance (es : List JEntry) (t : String)
    (w : Option String) (m err : String) (ps : List (String × String))
    (now : List Char) :
    ∀ x ∈ record_failure es t w m err ps now,
      (∃ y ∈ es, x.tool = y.tool ∧ x.app = y.app) ∨
        (x.tool = t ∧ x.app = normalize_window w) := by
  intro x hx
  unfold record_failure at hx
  by_cases hany : es.any (fun e =>
      e.tool == t && e.app == normalize_window w && e.method_failed == m)
  · rw [if_pos hany] at hx
    rcases mem_updateFirst hx with h | ⟨y, hy, hxy⟩
    · exact Or.inl ⟨x, h, rfl, rfl⟩
    · exact Or.inl ⟨y, hy, by rw [hxy], by rw [hxy]⟩
  · rw [if_neg hany] at hx
    have hx' := mem_evict hx
    rcases List.mem_append.mp hx' with h | h
    · exact Or.inl ⟨x, h, rfl, rfl⟩
    · rcases List.mem_singleton.mp h with rfl
      exact Or.inr ⟨rfl, rfl⟩

theorem record_success_provenance (es : List JEntry) (t : String)
    (w : Option String) (m : String) (now : List Char) :
    ∀ x ∈ record_success es t w m now,
      ∃ y ∈ es, x.tool = y.tool ∧ x.app = y.app := by
  intro x hx
  unfold record_success at hx
  by_cases hany : es.reverse.any (succMatches t (normalize_window w) m)
  · rw [if_pos hany] at hx
    rw [List.mem_reverse] at hx
    rcases mem_updateFirst hx with h | ⟨y, hy, hxy⟩
    · exact ⟨x, List.mem_reverse.mp h, rfl, rfl⟩
    · exact ⟨y, List.mem_reverse.mp hy, by rw [hxy], by rw [hxy]⟩
  · rw [if_neg hany] at hx
    exact ⟨x, hx, rfl, rfl⟩

/-- Every entry in a journal built by running operations from the empty
journal stems from some failure operation with the entry's tool and
normalized app. -/
theorem runOps_provenance :
    ∀ (ops : List JOp) (es₀ : List JEntry) (past : List JOp),
      (∀ e ∈ es₀, ∃ op ∈ past, isFailFor e.tool e.app op) →
      ∀ e ∈ ops.foldl applyOp es₀,
        ∃ op ∈ past ++ ops, isFailFor e.tool e.app op := by
  intro ops
  induction ops with
  | nil =>
    intro es₀ past h e he
    rcases h e he with ⟨op, hop, hfail⟩
    exact ⟨op, by simpa using hop, hfail⟩
  | cons op ops ih =>
    intro es₀ past h e he
    have step : ∀ e ∈ applyOp es₀ op,
        ∃ o ∈ past ++ [op], isFailFor e.tool e.app o := by
      intro x hx
      cases op with
      | fail t w m err ps now =>
        rcases record_failure_provenance es₀ t w m err ps now x hx with
          ⟨y, hy, ht, ha⟩ | ⟨ht, ha⟩
        · rcases h y hy with ⟨o, ho, hf⟩
          exact ⟨o, List.mem_append_left _ ho, by rw [ht, ha]; exact hf⟩
        · exact ⟨JOp.fail t w m err ps now,
            List.mem_append_right _ (List.mem_singleton_self _),
            by rw [ht, ha]; exact ⟨rfl, rfl⟩⟩
      | succ t w m now =>
        rcases record_success_provenance es₀ t w m now x hx with ⟨y, hy, ht, ha⟩
        rcases h y hy with ⟨o, ho, hf⟩
        exact ⟨o, List.mem_append_left _ ho, by rw [ht, ha]; exact hf⟩
    have := ih (applyOp es₀ op) (past ++ [op]) step e (by simpa using he)
    rcases this with ⟨o, ho, hf⟩
    refine ⟨o, ?_, hf⟩
    have : past ++ [op] ++ ops = past ++ op :: ops := by simp
    rw [← this]
    exact ho

/-- The `get_best_method` fold returns either its accumulator or a member
entry that passed the eligibility test. -/
theorem get_best_fold_spec (tool app : String) :
    ∀ (es : List JEntry) (acc : Option JEntry) (b : JEntry),
      es.foldl (fun acc e =>
        if e.tool == tool && e.app == app && workedTruthy e &&
            decide (0 < e.success_count) then
          match acc with
          | none => some e
          | some b =>
            if b.success_count < e.success_count then some e else some b
        else acc) acc = some b →
      acc = some b ∨ (b ∈ es ∧
        (b.tool == tool && b.app == app && workedTruthy b &&
          decide (0 < b.success_count)) = true) := by
  intro es
  induction es with
  | nil => intro acc b h; exact Or.inl h
  | cons e es ih =>
    intro acc b h
    simp only [List.foldl_cons] at h
    by_cases hc : (e.tool == tool && e.app == app && workedTruthy e &&
        decide (0 < e.success_count)) = true
    · rw [if_pos hc] at h
      cases acc with
      | none =>
        rcases ih (some e) b h with hacc | ⟨hmem, hcond⟩
        · cases hacc
          exact Or.inr ⟨List.mem_cons_self _ _, hc⟩
        · exact Or.inr ⟨List.mem_cons_of_mem _ hmem, hcond⟩
      | some b0 =>
        have h' : es.foldl (fun acc e =>
            if e.tool == tool && e.app == app && workedTruthy e &&
                decide (0 < e.success_count) then
              match acc with
              | none => some e
              | some b =>
                if b.success_count < e.success_count then some e else some b
            else acc)
            (if b0.success_count < e.success_count then some e else some b0) =
            some b := h
        by_cases hlt : b0.success_count < e.success_count
        · rw [if_pos hlt] at h'
          rcases ih (some e) b h' with hacc | ⟨hmem, hcond⟩
          · cases hacc
            exact Or.inr ⟨List.mem_cons_self _ _, hc⟩
          · exact Or.inr ⟨List.mem_cons_of_mem _ hmem, hcond⟩
        · rw [if_neg hlt] at h'
          rcases ih (some b0) b h' with hacc | ⟨hmem, hcond⟩
          · exact Or.inl hacc
          · exact Or.inr ⟨List.mem_cons_of_mem _ hmem, hcond⟩
    · rw [if_neg hc] at h
      rcases ih acc b h with hacc | ⟨hmem, hcond⟩
      · exact Or.inl hacc
      · exact Or.inr ⟨List.mem_cons_of_mem _ hmem, hcond⟩

/-- C10, proved: `record_success` leaves the journal unchanged unless some
entry for the same tool and normalized app records a truthy failed method
different from the given method; and over any operation history starting
from the empty journal, `get_best_method` can return a method for a
(tool, window) pair only if some failure was recorded for that tool and
normalized app. -/
theorem record_success_requires_failure :
    (∀ (es : List JEntry) (tool : String) (window : Option String)
        (method : String) (now : List Char),
        (∀ e ∈ es, succMatches tool (normalize_window window) method e = false) →
        record_success es tool window method now = es) ∧
    (∀ (ops : List JOp) (tool : String) (window : Option String) (m : String),
        get_best_method (runOps ops) tool window = some m →
        ∃ op ∈ ops, isFailFor tool (normalize_window window) op) := by
  constructor
  · intro es tool window method now h
    unfold record_success
    have : es.reverse.any (succMatches tool (normalize_window window) method) =
        false := by
      rw [List.any_eq_false]
      intro e he
      simp [h e (List.mem_reverse.mp he)]
    simp [this]
  · intro ops tool window m h
    have h' : ((runOps ops).foldl (fun acc e =>
        if e.tool == tool && e.app == normalize_window window &&
            workedTruthy e && decide (0 < e.success_count) then
          match acc with
          | none => some e
          | some b =>
            if b.success_count < e.success_count then some e else some b
        else acc) none).bind (fun b => b.method_worked) = some m := h
    rcases hbest : (runOps ops).foldl (fun acc e =>
        if e.tool == tool && e.app == normalize_window window &&
            workedTruthy e && decide (0 < e.success_count) then
          match acc with
          | none => some e
          | some b =>
            if b.success_count < e.success_count then some e else some b
        else acc) none with _ | b
    · rw [hbest] at h'
      simp at h'
    · rcases get_best_fold_spec tool (normalize_window window) (runOps ops)
          none b hbest with hacc | ⟨hmem, hcond⟩
      · exact absurd hacc (by simp)
      · simp only [Bool.and_eq_true, beq_iff_eq] at hcond
        have := runOps_provenance ops [] [] (by intro e he; simp at he) b hmem
        rcases this with ⟨op, hop, hfail⟩
        refine ⟨op, by simpa using hop, ?_⟩
        rw [← hcond.1.1.1, ← hcond.1.1.2]
        exact hfail

theorem record_success_requires_failure_witness :
    ((∀ e ∈ [sampleEntry], succMatches "type_text"
        (normalize_window (some "Doc - Notepad")) "send_keys" e = false) ∧
      record_success [sampleEntry] "type_text" (some "Doc - Notepad")
        "send_keys" (str "2026-01-02T00:00:00") = [sampleEntry]) ∧
    (get_best_method
        (runOps [JOp.fail "click" (some "Doc - Notepad") "invoke" "err" []
            (str "2026-01-01T00:00:00"),
          JOp.succ "click" (some "Doc - Notepad") "click_input"
            (str "2026-01-02T00:00:00")])
        "click" (some "Doc - Notepad") = some "click_input" ∧
      ∃ op ∈ [JOp.fail "click" (some "Doc - Notepad") "invoke" "err" []
            (str "2026-01-01T00:00:00"),
          JOp.succ "click" (some "Doc - Notepad") "click_input"
            (str "2026-01-02T00:00:00")],
        isFailFor "click" (normalize_window (some "Doc - Notepad")) op) := by
  refine ⟨⟨by decide, ?_⟩, ⟨by decide, ?_⟩⟩
  · exact record_success_requires_failure.1 [sampleEntry] "type_text"
      (some "Doc - Notepad") "send_keys" (str "2026-01-02T00:00:00") (by decide)
  · exact record_success_requires_failure.2 _ "click" (some "Doc - Notepad")
      "click_input" (by decide)

/-! ## The kill switch at the gate (claim C2) -/

/-- C2, proved: when the kill state is set, `approve_action` rejects with
the kill message and logs an `ActionRecord` of result class `killed`; in
the dispatcher, any tool other than `kill_switch` whose gate rejects never
reaches its body (`Ev.dispatch` is absent), while the `kill_switch` tool
is routed to its handler before the gate in every engine state, so it is
permitted even when killed or in block mode. -/
theorem kill_gate_and_kill_tool_bypass :
    (∀ (T : Type) [inst : LinearOrderedCommRing T] (cfg : SecurityCfg)
        (st : SafetyState T) (tool : String) (action : List Char)
        (params : Params) (now : T), st.killed = true →
        (approve_action cfg st tool action params now).1.1 = false ∧
        (approve_action cfg st tool action params now).1.2 = msgKilled ∧
        (approve_action cfg st tool action params now).2.action_log =
          st.action_log ++ [⟨tool, action, logParams params, false, "killed",
            some (str "Kill switch is active")⟩]) ∧
    (∀ (T : Type) [inst : LinearOrderedCommRing T] (cfg : SecurityCfg)
        (st : SafetyState T) (name : String) (args : Params) (now : T)
        (r : List Char), st.killed = true → name ≠ "kill_switch" →
        Ev.dispatch ∉ (call_tool_inner cfg st name args now r).1.events ∧
        (call_tool_inner cfg st name args now r).1.response = msgKilled) ∧
    (∀ (T : Type) [inst : LinearOrderedCommRing T] (cfg : SecurityCfg)
        (st : SafetyState T) (args : Params) (now : T) (r : List Char),
        (call_tool_inner cfg st "kill_switch" args now r).1.events =
          [Ev.killHandled]) := by
  have killCase : ∀ (T : Type) [inst : LinearOrderedCommRing T] (cfg : SecurityCfg)
      (st : SafetyState T) (tool : String) (action : List Char)
      (params : Params) (now : T), st.killed = true →
      approve_action cfg st tool action params now =
        ((false, msgKilled),
          logAction st tool action params false "killed"
            (some (str "Kill switch is active"))) := by
    intro T _ cfg st tool action params now h
    unfold approve_action
    rw [if_pos h]
  refine ⟨?_, ?_, ?_⟩
  · intro T _ cfg st tool action params now h
    rw [killCase T cfg st tool action params now h]
    exact ⟨rfl, rfl, rfl⟩
  · intro T _ cfg st name args now r h hne
    unfold call_tool_inner
    rw [if_neg hne, killCase T cfg st name name.data args now h]
    constructor
    · simp
    · rfl
  · intro T _ cfg st args now r
    unfold call_tool_inner
    rw [if_pos rfl]

/-- A killed engine state over integer time, with block mode configured,
for exercising the kill gate. -/
def killedState : SafetyState ℤ where
  killed := true
  action_timestamps := []
  action_log := []

def blockModeCfg : SecurityCfg :=
  { defaultSecurityCfg with confirmation_mode := "block" }

theorem kill_gate_and_kill_tool_bypass_witness :
    (killedState.killed = true ∧
      (approve_action blockModeCfg killedState "click" (str "click") []
        (0 : ℤ)).1.1 = false) ∧
    (("click" : String) ≠ "kill_switch" ∧
      Ev.dispatch ∉ (call_tool_inner blockModeCfg killedState "click" []
        (0 : ℤ) []).1.events) ∧
    (call_tool_inner blockModeCfg killedState "kill_switch"
        [("action", str "status")] (0 : ℤ) []).1.events = [Ev.killHandled] := by
  refine ⟨⟨rfl, ?_⟩, ⟨by decide, ?_⟩, ?_⟩
  · exact (kill_gate_and_kill_tool_bypass.1 ℤ blockModeCfg killedState "click"
      (str "click") [] 0 rfl).1
  · exact (kill_gate_and_kill_tool_bypass.2.1 ℤ blockModeCfg killedState
      "click" [] 0 [] rfl (by decide)).1
  · exact kill_gate_and_kill_tool_bypass.2.2 ℤ blockModeCfg killedState
      [("action", str "status")] 0 []

/-! ## The rate limiter (claim C3) -/

/-- One gated call: the arguments `approve_action` is invoked with, plus
the `time.time()` instant of the call. -/
structure Call (T : Type) where
  tool : String
  action : List Char
  params : Params
  time : T

/-- Run a sequence of calls through the gate, collecting each call's
verdict. -/
def runCalls {T : Type} [LinearOrderedCommRing T] (cfg : SecurityCfg) :
    SafetyState T → List (Call T) → SafetyState T × List (Call T × Bool)
  | st, [] => (st, [])
  | st, c :: cs =>
    ((runCalls cfg (approve_action cfg st c.tool c.action c.params c.time).2
        cs).1,
      (c, (approve_action cfg st c.tool c.action c.params c.time).1.1) ::
        (runCalls cfg (approve_action cfg st c.tool c.action c.params
          c.time).2 cs).2)

/-- The times of the approved calls of a run. -/
def approvedTimes {T : Type} (results : List (Call T × Bool)) : List T :=
  (results.filter (fun x => x.2)).map (fun x => x.1.time)

/-- Membership of an instant in the trailing 60-second window ending at
`wEnd`. -/
def inWin {T : Type} [LinearOrderedCommRing T] (wEnd t : T) : Bool :=
  decide (wEnd - 60 < t) && decide (t ≤ wEnd)

/-- How one `approve_action` call transforms the rate-limit timestamp
list: on approval the pruned window plus the call instant (and the prune
found fewer than the limit); on rejection either nothing changed (kill or
blocked rejections) or the list was merely pruned (rate-limit or
block-mode rejections). -/
theorem approve_action_cases {T : Type} [LinearOrderedCommRing T]
    (cfg : SecurityCfg) (st : SafetyState T) (tool : String)
    (action : List Char) (params : Params) (now : T) :
    ((approve_action cfg st tool action params now).1.1 = true ∧
      (approve_action cfg st tool action params now).2.action_timestamps =
        st.action_timestamps.filter (fun t => decide (now - t < 60)) ++ [now] ∧
      (st.action_timestamps.filter (fun t => decide (now - t < 60))).length <
        cfg.max_actions_per_minute) ∨
    ((approve_action cfg st tool action params now).1.1 = false ∧
      ((approve_action cfg st tool action params now).2.action_timestamps =
          st.action_timestamps ∨
        (approve_action cfg st tool action params now).2.action_timestamps =
          st.action_timestamps.filter (fun t => decide (now - t < 60)))) := by
  by_cases hk : st.killed = true
  · have he : approve_action cfg st tool action params now =
        ((false, msgKilled), logAction st tool action params false "killed"
          (some (str "Kill switch is active"))) := by
      unfold approve_action
      rw [if_pos hk]
    rw [he]
    exact Or.inr ⟨rfl, Or.inl rfl⟩
  · cases happ : check_blocked_app cfg action params with
    | some b =>
      have he : approve_action cfg st tool action params now =
          ((false, msgBlockedApp b), logAction st tool action params false
            "blocked" (some (str "Blocked app: " ++ b))) := by
        unfold approve_action
        rw [if_neg hk]
        simp only [happ]
      rw [he]
      exact Or.inr ⟨rfl, Or.inl rfl⟩
    | none =>
      cases hcmd : check_blocked_command cfg params with
      | some b =>
        have he : approve_action cfg st tool action params now =
            ((false, msgBlockedCmd b), logAction st tool action params false
              "blocked" (some (str "Blocked command: " ++ b))) := by
          unfold approve_action
          rw [if_neg hk]
          simp only [happ, hcmd]
        rw [he]
        exact Or.inr ⟨rfl, Or.inl rfl⟩
      | none =>
        by_cases hr : (st.action_timestamps.filter
            (fun t => decide (now - t < 60))).length <
            cfg.max_actions_per_minute
        · by_cases hbm : cfg.confirmation_mode = "block"
          · have he : approve_action cfg st tool action params now =
                ((false, msgBlockMode),
                  logAction
                    { st with action_timestamps := (st.action_timestamps.filter (fun t => decide (now - t < 60))) }
                    tool action params false "blocked"
                    (some (str "Block mode active — all automation disabled"))) := by
              unfold approve_action
              rw [if_neg hk]
              simp only [happ, hcmd]
              rw [if_pos hr, if_pos hbm]
            rw [he]
            exact Or.inr ⟨rfl, Or.inr rfl⟩
          · left
            refine ⟨?_, ?_, hr⟩
            · unfold approve_action
              rw [if_neg hk]
              simp only [happ, hcmd]
              rw [if_pos hr, if_neg hbm]
            · unfold approve_action
              rw [if_neg hk]
              simp only [happ, hcmd]
              rw [if_pos hr, if_neg hbm]
              by_cases hcf : cfg.confirmation_mode = "all" ∨
                  (cfg.confirmation_mode = "sensitive" ∧
                    is_sensitive_action tool action = true)
              · rw [if_pos hcf]
                rfl
              · rw [if_neg hcf]
                rfl
        · have he : approve_action cfg st tool action params now =
              ((false, msgRateLimit cfg.max_actions_per_minute),
                logAction
                  { st with action_timestamps := (st.action_timestamps.filter (fun t => decide (now - t < 60))) }
                  tool action params false "blocked"
                  (some (str "Rate limit exceeded"))) := by
            unfold approve_action
            rw [if_neg hk]
            simp only [happ, hcmd]
            rw [if_neg hr]
          rw [he]
          exact Or.inr ⟨rfl, Or.inr rfl⟩

theorem approvedTimes_cons_true {T : Type} (c : Call T)
    (r : List (Call T × Bool)) :
    approvedTimes ((c, true) :: r) = c.time :: approvedTimes r := by
  simp [approvedTimes]

theorem approvedTimes_cons_false {T : Type} (c : Call T)
    (r : List (Call T × Bool)) :
    approvedTimes ((c, false) :: r) = approvedTimes r := by
  simp [approvedTimes]

/-- The rate-limit invariant, generalized for induction: `A` is the list
of instants approved so far, `lastT` the instant the state was last
touched at. -/
theorem runCalls_window_bound {T : Type} [LinearOrderedCommRing T]
    (cfg : SecurityCfg) :
    ∀ (calls : List (Call T)) (st : SafetyState T) (A : List T) (lastT : T),
      (∀ c ∈ calls, lastT ≤ c.time) →
      List.Pairwise (fun a b : Call T => a.time ≤ b.time) calls →
      (A.filter (fun t => decide (lastT - 60 < t))).Sublist
        st.action_timestamps →
      (∀ t ∈ A, t ≤ lastT) →
      (∀ t ∈ st.action_timestamps, t ≤ lastT) →
      (∀ wEnd, A.countP (inWin wEnd) ≤ cfg.max_actions_per_minute) →
      ∀ wEnd, ((A ++ approvedTimes (runCalls cfg st calls).2).countP
        (inWin wEnd)) ≤ cfg.max_actions_per_minute := by
  intro calls
  induction calls with
  | nil =>
    intro st A lastT _ _ _ _ _ hP wEnd
    simpa [runCalls, approvedTimes] using hP wEnd
  | cons c cs ih =>
    intro st A lastT hmono hpw hsub hAle hstle hP wEnd
    have hlast_now : lastT ≤ c.time := hmono c (List.mem_cons_self _ _)
    have hmono' : ∀ c' ∈ cs, c.time ≤ c'.time :=
      fun c' hc' => List.rel_of_pairwise_cons hpw hc'
    have hpw' := hpw.of_cons
    -- the approvals-so-far that are inside the window ending at the call
    have hfilter_mono : (A.filter (fun t => decide (c.time - 60 < t))).Sublist
        (A.filter (fun t => decide (lastT - 60 < t))) := by
      apply List.monotone_filter_right
      intro a ha
      have h1 : c.time - 60 < a := of_decide_eq_true ha
      exact decide_eq_true (by linarith)
    have hsub_now : (A.filter (fun t => decide (c.time - 60 < t))).Sublist
        st.action_timestamps := hfilter_mono.trans hsub
    have hsub_pruned : (A.filter (fun t => decide (c.time - 60 < t))).Sublist
        (st.action_timestamps.filter (fun t => decide (c.time - t < 60))) := by
      have heq : (A.filter (fun t => decide (c.time - 60 < t))).filter
          (fun t => decide (c.time - t < 60)) =
          A.filter (fun t => decide (c.time - 60 < t)) := by
        rw [List.filter_eq_self]
        intro a ha
        have h1 : c.time - 60 < a :=
          of_decide_eq_true (List.mem_filter.mp ha).2
        exact decide_eq_true (by linarith)
      rw [← heq]
      exact List.Sublist.filter _ hsub_now
    rcases approve_action_cases cfg st c.tool c.action c.params c.time with
      ⟨hap, hts, hlt⟩ | ⟨hap, hts⟩
    · -- call approved: the instant joins both the state and `A`
      have hkey : ∀ w, (A ++ [c.time]).countP (inWin w) ≤
          cfg.max_actions_per_minute := by
        intro w
        rw [List.countP_append]
        by_cases hin : inWin w c.time = true
        · have hwc : c.time ≤ w := by
            have := (Bool.and_eq_true _ _).mp hin
            exact of_decide_eq_true this.2
          have h1 : A.countP (inWin w) ≤
              A.countP (fun t => decide (c.time - 60 < t)) := by
            apply List.countP_mono_left
            intro x _ hpx
            have hx := (Bool.and_eq_true _ _).mp hpx
            have hx1 : w - 60 < x := of_decide_eq_true hx.1
            exact decide_eq_true (by linarith)
          have h2 : A.countP (fun t => decide (c.time - 60 < t)) ≤
              (st.action_timestamps.filter
                (fun t => decide (c.time - t < 60))).length := by
            rw [List.countP_eq_length_filter]
            exact hsub_pruned.length_le
          have h3 : List.countP (inWin w) [c.time] = 1 := by
            simp [List.countP_cons, hin]
          omega
        · have h0 : List.countP (inWin w) [c.time] = 0 := by
            simp [List.countP_cons, hin]
          rw [h0]
          simpa using hP w
      have hrec := ih (approve_action cfg st c.tool c.action c.params
          c.time).2 (A ++ [c.time]) c.time hmono' hpw' ?_ ?_ ?_ hkey
      · have hruns : (runCalls cfg st (c :: cs)).2 =
            (c, (approve_action cfg st c.tool c.action c.params c.time).1.1) ::
              (runCalls cfg (approve_action cfg st c.tool c.action c.params
                c.time).2 cs).2 := rfl
        rw [hruns, hap, approvedTimes_cons_true]
        have : A ++ c.time :: approvedTimes (runCalls cfg
            (approve_action cfg st c.tool c.action c.params c.time).2 cs).2 =
            (A ++ [c.time]) ++ approvedTimes (runCalls cfg
              (approve_action cfg st c.tool c.action c.params c.time).2
              cs).2 := by
          simp
        rw [this]
        exact hrec wEnd
      · -- window approvals are a sublist of the new timestamp list
        rw [hts]
        have hfa : (A ++ [c.time]).filter
            (fun t => decide (c.time - 60 < t)) =
            A.filter (fun t => decide (c.time - 60 < t)) ++ [c.time] := by
          rw [List.filter_append]
          congr 1
          simp only [List.filter_cons, List.filter_nil]
          rw [if_pos]
          exact decide_eq_true (by linarith)
        rw [hfa]
        exact List.Sublist.append hsub_pruned (List.Sublist.refl _)
      · intro t ht
        rcases List.mem_append.mp ht with h | h
        · exact le_trans (hAle t h) hlast_now
        · rw [List.mem_singleton.mp h]
      · intro t ht
        rw [hts] at ht
        rcases List.mem_append.mp ht with h | h
        · exact le_trans (hstle t (List.mem_of_mem_filter h)) hlast_now
        · rw [List.mem_singleton.mp h]
    · -- call rejected: `A` is unchanged, the state kept or pruned
      have hrec := ih (approve_action cfg st c.tool c.action c.params
          c.time).2 A c.time hmono' hpw' ?_ ?_ ?_ hP
      · have hruns : (runCalls cfg st (c :: cs)).2 =
            (c, (approve_action cfg st c.tool c.action c.params c.time).1.1) ::
              (runCalls cfg (approve_action cfg st c.tool c.action c.params
                c.time).2 cs).2 := rfl
        rw [hruns, hap, approvedTimes_cons_false]
        exact hrec wEnd
      · rcases hts with hts | hts
        · rw [hts]
          exact hsub_now
        · rw [hts]
          exact hsub_pruned
      · intro t ht
        exact le_trans (hAle t ht) hlast_now
      · intro t ht
        rcases hts with hts | hts
        · rw [hts] at ht
          exact le_trans (hstle t ht) hlast_now
        · rw [hts] at ht
          exact le_trans (hstle t (List.mem_of_mem_filter ht)) hlast_now

/-- C3, proved: over any time-ordered sequence of gate calls from a fresh
engine, the number of approved calls inside any trailing 60-second window
never exceeds `max_actions_per_minute`; a call that reaches the rate-limit
check while the window already holds at least that many approved
timestamps is rejected with the rate-limit message and a `blocked` audit
record reading `Rate limit exceeded`; and the timestamp list gains an
entry only on approval (a rejected call leaves it unchanged or merely
pruned). -/
theorem rate_limit_window_bound :
    (∀ (T : Type) [inst : LinearOrderedCommRing T] (cfg : SecurityCfg)
        (calls : List (Call T)),
        List.Pairwise (fun a b : Call T => a.time ≤ b.time) calls →
        ∀ wEnd : T,
          (approvedTimes (runCalls cfg (initState T) calls).2).countP
            (inWin wEnd) ≤ cfg.max_actions_per_minute) ∧
    (∀ (T : Type) [inst : LinearOrderedCommRing T] (cfg : SecurityCfg)
        (st : SafetyState T) (tool : String) (action : List Char)
        (params : Params) (now : T),
        st.killed = false →
        check_blocked_app cfg action params = none →
        check_blocked_command cfg params = none →
        cfg.max_actions_per_minute ≤
          (st.action_timestamps.filter
            (fun t => decide (now - t < 60))).length →
        (approve_action cfg st tool action params now).1.1 = false ∧
        (approve_action cfg st tool action params now).1.2 =
          msgRateLimit cfg.max_actions_per_minute ∧
        (approve_action cfg st tool action params now).2.action_log =
          st.action_log ++ [⟨tool, action, logParams params, false, "blocked",
            some (str "Rate limit exceeded")⟩]) ∧
    (∀ (T : Type) [inst : LinearOrderedCommRing T] (cfg : SecurityCfg)
        (st : SafetyState T) (tool : String) (action : List Char)
        (params : Params) (now : T),
        ((approve_action cfg st tool action params now).1.1 = true →
          (approve_action cfg st tool action params now).2.action_timestamps =
            st.action_timestamps.filter (fun t => decide (now - t < 60)) ++
              [now]) ∧
        ((approve_action cfg st tool action params now).1.1 = false →
          (approve_action cfg st tool action params now).2.action_timestamps =
            st.action_timestamps ∨
          (approve_action cfg st tool action params now).2.action_timestamps =
            st.action_timestamps.filter (fun t => decide (now - t < 60)))) := by
  refine ⟨?_, ?_, ?_⟩
  · intro T _ cfg calls hpw wEnd
    cases calls with
    | nil => simp [runCalls, approvedTimes, inWin]
    | cons c cs =>
      have := runCalls_window_bound cfg (c :: cs) (initState T) [] c.time
        (by
          intro c' hc'
          rcases List.mem_cons.mp hc' with h | h
          · rw [h]
          · exact List.rel_of_pairwise_cons hpw h)
        hpw (by simp [initState]) (by simp) (by simp [initState])
        (by intro w; simp) wEnd
      simpa using this
  · intro T _ cfg st tool action params now hk happ hcmd hge
    have hr : ¬ (st.action_timestamps.filter
        (fun t => decide (now - t < 60))).length <
        cfg.max_actions_per_minute := not_lt_of_ge hge
    have he : approve_action cfg st tool action params now =
        ((false, msgRateLimit cfg.max_actions_per_minute),
          logAction
            { st with action_timestamps := (st.action_timestamps.filter (fun t => decide (now - t < 60))) }
            tool action params false "blocked"
            (some (str "Rate limit exceeded"))) := by
      unfold approve_action
      rw [if_neg (by rw [hk]; exact Bool.false_ne_true)]
      simp only [happ, hcmd]
      rw [if_neg hr]
    rw [he]
    exact ⟨rfl, rfl, rfl⟩
  · intro T _ cfg st tool action params now
    rcases approve_action_cases cfg st tool action params now with
      ⟨hap, hts, _⟩ | ⟨hap, hts⟩
    · constructor
      · intro _
        exact hts
      · intro hfalse
        rw [hap] at hfalse
        cases hfalse
    · constructor
      · intro htrue
        rw [hap] at htrue
        cases htrue
      · intro _
        exact hts

/-- A permissive single-action-per-minute configuration for the
witness. -/
def autonomousCfg1 : SecurityCfg :=
  { defaultSecurityCfg with
      confirmation_mode := "autonomous"
      max_actions_per_minute := 1 }

/-- An engine state whose window already holds one approved timestamp. -/
def oneStampState : SafetyState ℤ where
  killed := false
  action_timestamps := [0]
  action_log := []

theorem rate_limit_window_bound_witness :
    (List.Pairwise (fun a b : Call ℤ => a.time ≤ b.time)
        [⟨"click", str "click", [], 0⟩, ⟨"click", str "click", [], 10⟩] ∧
      (approvedTimes (runCalls autonomousCfg1 (initState ℤ)
          [⟨"click", str "click", [], 0⟩, ⟨"click", str "click", [], 10⟩]).2).countP
        (inWin (10 : ℤ)) ≤ autonomousCfg1.max_actions_per_minute) ∧
    (oneStampState.killed = false ∧
      check_blocked_app autonomousCfg1 (str "click") [] = none ∧
      check_blocked_command autonomousCfg1 [] = none ∧
      autonomousCfg1.max_actions_per_minute ≤
        (oneStampState.action_timestamps.filter
          (fun t => decide ((30 : ℤ) - t < 60))).length ∧
      (approve_action autonomousCfg1 oneStampState "click" (str "click") []
        (30 : ℤ)).1.1 = false) ∧
    ((approve_action autonomousCfg1 oneStampState "click" (str "click") []
        (30 : ℤ)).1.1 = false →
      (approve_action autonomousCfg1 oneStampState "click" (str "click") []
          (30 : ℤ)).2.action_timestamps =
        oneStampState.action_timestamps ∨
      (approve_action autonomousCfg1 oneStampState "click" (str "click") []
          (30 : ℤ)).2.action_timestamps =
        oneStampState.action_timestamps.filter
          (fun t => decide ((30 : ℤ) - t < 60))) := by
  refine ⟨⟨by decide, ?_⟩, ⟨rfl, by decide, by decide, by decide, ?_⟩, ?_⟩
  · exact rate_limit_window_bound.1 ℤ autonomousCfg1
      [⟨"click", str "click", [], 0⟩, ⟨"click", str "click", [], 10⟩]
      (by decide) 10
  · exact (rate_limit_window_bound.2.1 ℤ autonomousCfg1 oneStampState "click"
      (str "click") [] 30 rfl (by decide) (by decide) (by decide)).1
  · exact (rate_limit_window_bound.2.2 ℤ autonomousCfg1 oneStampState "click"
      (str "click") [] 30).2

/-! ## Blocked-command substring detection (claim C4)

The code searches the blocked patterns in the lowercased, `strip`ped
command; a pattern without surrounding whitespace occurs in the command
iff it occurs in the stripped command. -/

/-- The lowercased pattern neither starts nor ends with whitespace.  Every
default `blocked_commands` entry satisfies this. -/
def noEdgeSpace (l : List Char) : Bool :=
  (match l.head? with
   | some c => !isPySpace c
   | none => true) &&
  (match l.getLast? with
   | some c => !isPySpace c
   | none => true)

theorem infix_dropWhile {q s : List Char}
    (hq : ∀ c, q.head? = some c → isPySpace c = false)
    (h : q <:+: s) : q <:+: s.dropWhile isPySpace := by
  induction s with
  | nil =>
    rw [List.infix_nil] at h
    rw [h]
    exact List.nil_infix
  | cons c cs ih =>
    by_cases hc : isPySpace c = true
    · rw [List.dropWhile_cons, if_pos hc]
      apply ih
      rcases List.infix_cons_iff.mp h with hp | hi
      · cases q with
        | nil => exact List.nil_infix
        | cons q0 qs =>
          have hq0 : q0 = c := (List.cons_prefix_cons.mp hp).1
          have := hq q0 rfl
          rw [hq0, hc] at this
          cases this
      · exact hi
    · rw [List.dropWhile_cons, if_neg hc]
      exact h

theorem infix_pyStrip {q s : List Char} (hq : noEdgeSpace q = true) :
    q <:+: s ↔ q <:+: pyStrip s := by
  have hq1 : ∀ c, q.head? = some c → isPySpace c = false := by
    intro c hc
    have := (Bool.and_eq_true _ _).mp hq
    rw [hc] at this
    simpa using this.1
  have hq2 : ∀ c, q.getLast? = some c → isPySpace c = false := by
    intro c hc
    have := (Bool.and_eq_true _ _).mp hq
    rw [hc] at this
    simpa using this.2
  constructor
  · intro h
    unfold pyStrip
    have h1 : q <:+: s.dropWhile isPySpace := infix_dropWhile hq1 h
    have h2 : q.reverse <:+: (s.dropWhile isPySpace).reverse :=
      List.reverse_infix.mpr h1
    have h3 : q.reverse <:+:
        ((s.dropWhile isPySpace).reverse).dropWhile isPySpace := by
      apply infix_dropWhile ?_ h2
      intro c hc
      rw [List.head?_reverse] at hc
      exact hq2 c hc
    exact List.reverse_infix.mp (by simpa using h3)
  · intro h
    refine h.trans ?_
    unfold pyStrip
    have e1 : ((s.dropWhile isPySpace).reverse.dropWhile isPySpace) <:+
        (s.dropWhile isPySpace).reverse := List.dropWhile_suffix _
    have e2 : ((s.dropWhile isPySpace).reverse.dropWhile isPySpace).reverse <+:
        s.dropWhile isPySpace := by
      have e3 := List.reverse_prefix.mpr e1
      rw [List.reverse_reverse] at e3
      exact e3
    exact e2.isInfix.trans (List.dropWhile_suffix _).isInfix

/-- C4, proved: with the kill state clear and no blocked-application
match, a truthy `command` parameter containing any configured blocked
pattern as a case-insensitive substring makes `approve_action` reject
with the blocked-command message and a `blocked` audit record naming the
matched pattern; and when no pattern occurs as a case-insensitive
substring, the blocked-command check passes.  (Patterns are assumed free
of surrounding whitespace, as every default pattern is, because the code
strips the command before searching.) -/
theorem blocked_command_substring :
    ∀ (T : Type) [inst : LinearOrderedCommRing T] (cfg : SecurityCfg)
      (st : SafetyState T) (tool : String) (action : List Char)
      (params : Params) (now : T) (cmd : List Char),
      (∀ p ∈ cfg.blocked_commands, noEdgeSpace (lowerStr p) = true) →
      st.killed = false →
      check_blocked_app cfg action params = none →
      lookupParam params "command" = some cmd →
      cmd ≠ [] →
      ((∃ p ∈ cfg.blocked_commands, lowerStr p <:+: lowerStr cmd) →
        (approve_action cfg st tool action params now).1.1 = false ∧
        ∃ p ∈ cfg.blocked_commands, (lowerStr p <:+: lowerStr cmd) ∧
          (approve_action cfg st tool action params now).1.2 =
            msgBlockedCmd p ∧
          (approve_action cfg st tool action params now).2.action_log =
            st.action_log ++ [⟨tool, action, logParams params, false,
              "blocked", some (str "Blocked command: " ++ p)⟩]) ∧
      ((∀ p ∈ cfg.blocked_commands, ¬ (lowerStr p <:+: lowerStr cmd)) →
        check_blocked_command cfg params = none) := by
  intro T _ cfg st tool action params now cmd hwf hk happ hcmd hne
  constructor
  · intro ⟨p, hp, hocc⟩
    have hsome : (cfg.blocked_commands.find?
        (fun b => decide (lowerStr b <:+: pyStrip (lowerStr cmd)))).isSome =
        true := by
      rw [List.find?_isSome]
      exact ⟨p, hp, decide_eq_true ((infix_pyStrip (hwf p hp)).mp hocc)⟩
    rcases hfind : cfg.blocked_commands.find?
        (fun b => decide (lowerStr b <:+: pyStrip (lowerStr cmd))) with _ | p₀
    · rw [hfind] at hsome
      cases hsome
    · have hmem : p₀ ∈ cfg.blocked_commands := List.mem_of_find?_eq_some hfind
      have hpred := List.find?_some hfind
      have hocc₀ : lowerStr p₀ <:+: lowerStr cmd :=
        (infix_pyStrip (hwf p₀ hmem)).mpr (of_decide_eq_true hpred)
      have hchk : check_blocked_command cfg params = some p₀ := by
        unfold check_blocked_command
        simp only [hcmd]
        rw [if_neg hne]
        exact hfind
      have he : approve_action cfg st tool action params now =
          ((false, msgBlockedCmd p₀),
            logAction st tool action params false "blocked"
              (some (str "Blocked command: " ++ p₀))) := by
        unfold approve_action
        rw [if_neg (by rw [hk]; exact Bool.false_ne_true)]
        simp only [happ, hchk]
      rw [he]
      exact ⟨rfl, p₀, hmem, hocc₀, rfl, rfl⟩
  · intro hnone
    unfold check_blocked_command
    simp only [hcmd]
    rw [if_neg hne]
    show List.find? (fun b => decide (lowerStr b <:+: pyStrip (lowerStr cmd)))
      cfg.blocked_commands = none
    rw [List.find?_eq_none]
    intro p hp
    simp only [decide_eq_true_eq]
    intro hocc
    exact hnone p hp ((infix_pyStrip (hwf p hp)).mpr hocc)

theorem blocked_command_substring_witness :
    ((∀ p ∈ autonomousCfg1.blocked_commands, noEdgeSpace (lowerStr p) = true) ∧
      (initState ℤ).killed = false ∧
      check_blocked_app autonomousCfg1 (str "run_command")
        [("command", str "  FORMAT C:")] = none ∧
      lookupParam [("command", str "  FORMAT C:")] "command" =
        some (str "  FORMAT C:") ∧
      str "  FORMAT C:" ≠ [] ∧
      (∃ p ∈ autonomousCfg1.blocked_commands,
        lowerStr p <:+: lowerStr (str "  FORMAT C:")) ∧
      (approve_action autonomousCfg1 (initState ℤ) "run_command"
        (str "run_command") [("command", str "  FORMAT C:")] (0 : ℤ)).1.1 =
        false) ∧
    ((∀ p ∈ autonomousCfg1.blocked_commands,
        ¬ (lowerStr p <:+: lowerStr (str "echo safe"))) ∧
      check_blocked_command autonomousCfg1 [("command", str "echo safe")] =
        none) := by
  refine ⟨⟨by decide, rfl, by decide, by decide, by decide, by decide, ?_⟩,
    ⟨by decide, ?_⟩⟩
  · exact ((blocked_command_substring ℤ autonomousCfg1 (initState ℤ)
      "run_command" (str "run_command") [("command", str "  FORMAT C:")] 0
      (str "  FORMAT C:") (by decide) rfl (by decide) (by decide)
      (by decide)).1 (by decide)).1
  · exact (blocked_command_substring ℤ autonomousCfg1 (initState ℤ)
      "run_command" (str "run_command") [("command", str "echo safe")] 0
      (str "echo safe") (by decide) rfl (by decide) (by decide)
      (by decide)).2 (by decide)

/-! ## Focus save/restore in the dispatcher (claim C9) -/

/-- The inner dispatcher never emits focus events of its own. -/
theorem save_not_in_inner_events {T : Type} [LinearOrderedCommRing T]
    (cfg : SecurityCfg) (st : SafetyState T) (name : String) (args : Params)
    (now : T) (r : List Char) :
    Ev.save ∉ (call_tool_inner cfg st name args now r).1.events := by
  unfold call_tool_inner
  by_cases h : name = "kill_switch"
  · rw [if_pos h]
    simp
  · rw [if_neg h]
    by_cases hb : (approve_action cfg st name name.data args now).1.1 = true
    · rw [if_pos hb]
      simp
    · rw [if_neg hb]
      simp

/-- C9 counterexample: the claim — focus is saved exactly when the tool is
not the kill-switch tool — is false at the concrete tool `focus_window`,
which is not the kill-switch tool yet gets no focus save. -/
theorem focus_exemption_counterexample :
    ¬ ((Ev.save ∈ (call_tool defaultSecurityCfg (initState ℤ) "focus_window"
        [] (0 : ℤ) []).1.1) ↔ ("focus_window" : String) ≠ "kill_switch") := by
  decide

/-- C9 amended, proved: the dispatcher saves the user's focus before
processing, and restores it after completion, exactly when the tool is
outside the exemption set `{focus_window, restore_user_focus}`; the
kill-switch tool is not exempt. -/
theorem focus_save_exempt_set :
    ∀ (T : Type) [inst : LinearOrderedCommRing T] (cfg : SecurityCfg)
      (st : SafetyState T) (name : String) (args : Params) (now : T)
      (r : List Char),
      (focusExempt name = false →
        (call_tool cfg st name args now r).1.1 =
          Ev.save :: ((call_tool_inner cfg st name args now r).1.events ++
            [Ev.restore])) ∧
      (focusExempt name = true →
        (call_tool cfg st name args now r).1.1 =
          (call_tool_inner cfg st name args now r).1.events) ∧
      ((Ev.save ∈ (call_tool cfg st name args now r).1.1) ↔
        ¬ (name = "focus_window" ∨ name = "restore_user_focus")) := by
  intro T _ cfg st name args now r
  refine ⟨?_, ?_, ?_⟩
  · intro h
    unfold call_tool
    rw [h]
    simp
  · intro h
    unfold call_tool
    rw [h]
    simp
  · have hfe : focusExempt name = true ↔
        (name = "focus_window" ∨ name = "restore_user_focus") := by
      unfold focusExempt
      simp [Bool.or_eq_true, beq_iff_eq]
    by_cases h : focusExempt name = true
    · unfold call_tool
      rw [h]
      simp only [if_pos rfl]
      constructor
      · intro hmem
        exact absurd (by simpa using hmem)
          (save_not_in_inner_events cfg st name args now r)
      · intro hno
        exact absurd (hfe.mp h) hno
    · unfold call_tool
      rw [Bool.not_eq_true] at h
      rw [h]
      simp only [Bool.false_eq_true, if_neg, not_false_iff]
      constructor
      · intro _
        intro hor
        rw [← hfe] at hor
        rw [h] at hor
        cases hor
      · intro _
        simp

theorem focus_save_exempt_set_witness :
    (focusExempt "kill_switch" = false ∧
      (call_tool defaultSecurityCfg killedState "kill_switch"
          [("action", str "status")] (0 : ℤ) []).1.1 =
        Ev.save :: ((call_tool_inner defaultSecurityCfg killedState
          "kill_switch" [("action", str "status")] (0 : ℤ) []).1.events ++
          [Ev.restore])) ∧
    (focusExempt "focus_window" = true ∧
      (call_tool defaultSecurityCfg (initState ℤ) "focus_window" [] (0 : ℤ)
          []).1.1 =
        (call_tool_inner defaultSecurityCfg (initState ℤ) "focus_window" []
          (0 : ℤ) []).1.events) := by
  constructor
  · exact ⟨by decide, (focus_save_exempt_set ℤ defaultSecurityCfg killedState
      "kill_switch" [("action", str "status")] 0 []).1 (by decide)⟩
  · exact ⟨by decide, (focus_save_exempt_set ℤ defaultSecurityCfg
      (initState ℤ) "focus_window" [] 0 []).2.1 (by decide)⟩

/-! ## Workflow replay stops at the first unapproved step (claim C5) -/

theorem wfGo_blocked (killAt : Nat → Bool) (approveAt : Nat → Bool × List Char)
    (dispatchAt : Nat → DispatchOutcome) :
    ∀ (k i : Nat) (steps : List WStep) (acc : List StepResult) (total : Nat),
      k < steps.length →
      (∀ j, i ≤ j → j ≤ i + k → killAt j = false) →
      (∀ j, i ≤ j → j < i + k → (approveAt j).1 = true ∧
        dispatchAt j = .ok true) →
      (approveAt (i + k)).1 = false →
      (wfGo total killAt approveAt dispatchAt i steps acc).1.success = false ∧
      (wfGo total killAt approveAt dispatchAt i steps acc).1.completed_steps =
        i + k ∧
      (wfGo total killAt approveAt dispatchAt i steps acc).1.stopped_reason =
        some "safety_blocked" ∧
      (wfGo total killAt approveAt dispatchAt i steps acc).2 =
        List.range' i k := by
  intro k
  induction k with
  | zero =>
    intro i steps acc total hk hkill happ hblock
    cases steps with
    | nil => simp at hk
    | cons s rest =>
      have hki : killAt i = false := hkill i (le_refl i) (by omega)
      rw [Nat.add_zero] at hblock
      unfold wfGo
      rw [hki]
      simp only [Bool.false_eq_true, if_neg, not_false_iff, if_false]
      rw [if_pos hblock]
      exact ⟨rfl, by simp, rfl, rfl⟩
  | succ k ih =>
    intro i steps acc total hk hkill happ hblock
    cases steps with
    | nil => simp at hk
    | cons s rest =>
      have hki : killAt i = false := hkill i (le_refl i) (by omega)
      have hai : (approveAt i).1 = true := (happ i (le_refl i) (by omega)).1
      have hdi : dispatchAt i = .ok true := (happ i (le_refl i) (by omega)).2
      have hblock' : (approveAt ((i + 1) + k)).1 = false := by
        have he : (i + 1) + k = i + (k + 1) := by omega
        rw [he]
        exact hblock
      have hrec := ih (i + 1) rest (⟨i + 1, s.tool, "ok", none⟩ :: acc) total
        (by simpa using Nat.lt_of_succ_lt_succ hk)
        (by intro j h1 h2; exact hkill j (by omega) (by omega))
        (by intro j h1 h2; exact happ j (by omega) (by omega))
        hblock'
      unfold wfGo
      rw [hki]
      simp only [Bool.false_eq_true, if_neg, not_false_iff, if_false]
      rw [if_neg (by simp [hai])]
      rw [hdi]
      simp only [if_pos]
      refine ⟨hrec.1, ?_, hrec.2.2.1, ?_⟩
      · rw [hrec.2.1]
        omega
      · rw [hrec.2.2.2]
        rfl

/-- C5, proved: when the kill state stays clear through step `i` and every
step before `i` is approved and dispatched successfully, a safety
rejection at zero-based step `i` stops the replay with
`completed_steps = i`, stop reason `safety_blocked`, and exactly the steps
`0 … i-1` dispatched — step `i` and everything after it never run. -/
theorem workflow_run_stops_at_first_unapproved :
    ∀ (steps : List WStep) (killAt : Nat → Bool)
      (approveAt : Nat → Bool × List Char)
      (dispatchAt : Nat → DispatchOutcome) (i : Nat),
      i < steps.length →
      (∀ j, j ≤ i → killAt j = false) →
      (∀ j, j < i → (approveAt j).1 = true ∧ dispatchAt j = .ok true) →
      (approveAt i).1 = false →
      (workflow_run steps killAt approveAt dispatchAt).1.success = false ∧
      (workflow_run steps killAt approveAt dispatchAt).1.completed_steps = i ∧
      (workflow_run steps killAt approveAt dispatchAt).1.stopped_reason =
        some "safety_blocked" ∧
      (workflow_run steps killAt approveAt dispatchAt).2 = List.range i := by
  intro steps killAt approveAt dispatchAt i hlen hkill happ hblock
  have h := wfGo_blocked killAt approveAt dispatchAt i 0 steps []
    steps.length hlen
    (by intro j h1 h2; exact hkill j (by omega))
    (by intro j h1 h2; exact happ j (by omega))
    (by simpa using hblock)
  unfold workflow_run
  refine ⟨h.1, by simpa using h.2.1, h.2.2.1, ?_⟩
  rw [h.2.2.2, List.range_eq_range']

def wfDemoSteps : List WStep :=
  [⟨"click", [("element_name", str "OK")], 0⟩,
   ⟨"type_text", [("text", str "hello")], 200⟩]

theorem workflow_run_stops_at_first_unapproved_witness :
    (1 < wfDemoSteps.length ∧
      (∀ j, j ≤ 1 → (fun _ : Nat => false) j = false) ∧
      (∀ j, j < 1 →
        ((fun j : Nat => (j == 0, str "ok")) j).1 = true ∧
        (fun _ : Nat => DispatchOutcome.ok true) j = .ok true) ∧
      ((fun j : Nat => (j == 0, str "ok")) 1).1 = false) ∧
    (workflow_run wfDemoSteps (fun _ => false) (fun j => (j == 0, str "ok"))
      (fun _ => .ok true)).1.completed_steps = 1 ∧
    (workflow_run wfDemoSteps (fun _ => false) (fun j => (j == 0, str "ok"))
      (fun _ => .ok true)).2 = List.range 1 := by
  have h := workflow_run_stops_at_first_unapproved wfDemoSteps
    (fun _ => false) (fun j => (j == 0, str "ok")) (fun _ => .ok true) 1
    (by decide) (by decide) (by decide) (by decide)
  exact ⟨⟨by decide, by decide, by decide, by decide⟩, h.2.1, h.2.2.2⟩

/-! ## Escalating resolver thresholds (claim C6) -/

/-- C6, proved: in the UIA step, a best fuzzy score above 0.8 yields a
strong match with no partial-match list; a best score in `[0.6, 0.8]`
yields the best match together with the full candidate list as partial
matches; any lower best score (or no candidate) reports not found, and a
not-found UIA step makes `smart_find` escalate to OCR. -/
theorem try_uia_thresholds_and_escalation :
    (∀ (best : Candidate) (rest : List Candidate), 8/10 < best.score →
      try_uia (best :: rest) =
        ⟨true, some (candInfo best), some best.element, none, false⟩) ∧
    (∀ (best : Candidate) (rest : List Candidate),
      best.score ≤ 8/10 → 6/10 ≤ best.score →
      try_uia (best :: rest) =
        ⟨true, some (candInfo best), some best.element,
          some ((best :: rest).map candInfo), true⟩) ∧
    (∀ (best : Candidate) (rest : List Candidate), best.score < 6/10 →
      (try_uia (best :: rest)).found = false) ∧
    (try_uia []).found = false ∧
    (∀ (journalBest : Option String) (uia : UiaResult) (ocrFound ssOk : Bool),
      uia.found = false →
      "ocr" ∈ (smart_find journalBest uia ocrFound ssOk).methods_tried) := by
  refine ⟨?_, ?_, ?_, rfl, ?_⟩
  · intro best rest h
    simp only [try_uia]
    rw [if_pos h]
  · intro best rest h1 h2
    simp only [try_uia]
    rw [if_neg (not_lt_of_le h1), if_pos h2]
  · intro best rest h
    simp only [try_uia]
    rw [if_neg (not_lt_of_le (le_of_lt (lt_of_lt_of_le h (by norm_num)))),
      if_neg (not_le_of_lt h)]
  · intro journalBest uia ocrFound ssOk h
    unfold smart_find
    rw [h]
    simp only [Bool.and_false]
    by_cases ho : ocrFound = true
    · rw [ho]
      simp
    · rw [Bool.not_eq_true] at ho
      rw [ho]
      by_cases hs : ssOk = true
      · rw [hs]
        simp
      · rw [Bool.not_eq_true] at hs
        rw [hs]
        simp

def strongCand : Candidate := ⟨"OK", "Button", "btnOK", "name", 9/10, "", 1⟩

def partialCand : Candidate := ⟨"Okay", "Button", "btnOK", "name", 7/10, "", 2⟩

def weakCand : Candidate := ⟨"Zzz", "Button", "btnZ", "name", 1/2, "", 3⟩

theorem try_uia_thresholds_and_escalation_witness :
    ((8/10 : ℚ) < strongCand.score ∧
      try_uia [strongCand] =
        ⟨true, some (candInfo strongCand), some strongCand.element, none,
          false⟩) ∧
    (partialCand.score ≤ 8/10 ∧ (6/10 : ℚ) ≤ partialCand.score ∧
      try_uia [partialCand] =
        ⟨true, some (candInfo partialCand), some partialCand.element,
          some ([partialCand].map candInfo), true⟩) ∧
    (weakCand.score < 6/10 ∧ (try_uia [weakCand]).found = false) ∧
    ((try_uia [weakCand]).found = false ∧
      "ocr" ∈ (smart_find none (try_uia [weakCand]) false false).methods_tried) := by
  have hweak : (try_uia [weakCand]).found = false :=
    try_uia_thresholds_and_escalation.2.2.1 weakCand []
      (by unfold weakCand; norm_num)
  refine ⟨⟨?_, ?_⟩, ⟨?_, ?_, ?_⟩, ⟨?_, hweak⟩, ⟨hweak, ?_⟩⟩
  · unfold strongCand
    norm_num
  · exact try_uia_thresholds_and_escalation.1 strongCand []
      (by unfold strongCand; norm_num)
  · unfold partialCand
    norm_num
  · unfold partialCand
    norm_num
  · exact try_uia_thresholds_and_escalation.2.1 partialCand []
      (by unfold partialCand; norm_num) (by unfold partialCand; norm_num)
  · unfold weakCand
    norm_num
  · exact try_uia_thresholds_and_escalation.2.2.2.2 none (try_uia [weakCand])
      false false hweak

/-! ## Static script validation (claim C8) -/

theorem isForbiddenExprNode_const : isForbiddenExprNode .const = false := rfl

theorem isForbiddenExprNode_name (id : String) :
    isForbiddenExprNode (.name id) = decide (id ∈ forbiddenModules) := rfl

theorem isForbiddenExprNode_attr (v : PyExpr) (a : String) :
    isForbiddenExprNode (.attr v a) =
      (decide (a ∈ forbiddenAttrs) || moduleAttrFlag v) := rfl

theorem isForbiddenExprNode_call (f : PyExpr) (args : PyExprList) :
    isForbiddenExprNode (.call f args) = callNameFlag f := rfl

theorem isForbiddenExprNode_binop (l r : PyExpr) :
    isForbiddenExprNode (.binop l r) = false := rfl

theorem isForbiddenExprNode_subscript (v idx : PyExpr) :
    isForbiddenExprNode (.subscript v idx) = false := rfl

theorem isImportNode_exprStmt (e : PyExpr) :
    isImportNode (.exprStmt e) = false := rfl

theorem isImportNode_assign (t : String) (e : PyExpr) :
    isImportNode (.assign t e) = false := rfl

theorem isImportNode_ifStmt (c : PyExpr) (b o : PyStmtList) :
    isImportNode (.ifStmt c b o) = false := rfl

theorem isImportNode_whileStmt (c : PyExpr) (b : PyStmtList) :
    isImportNode (.whileStmt c b) = false := rfl

theorem isImportNode_forStmt (t : String) (it : PyExpr) (b : PyStmtList) :
    isImportNode (.forStmt t it b) = false := rfl

theorem moduleAttrErrs_nil_iff (v : PyExpr) (a : String) :
    moduleAttrErrs v a = [] ↔ moduleAttrFlag v = false := by
  cases v <;>
    simp [moduleAttrErrs, moduleAttrFlag, ite_eq_right_iff,
      decide_eq_false_iff_not]

theorem callNameErrs_nil_iff (f : PyExpr) :
    callNameErrs f = [] ↔ callNameFlag f = false := by
  cases f <;>
    simp [callNameErrs, callNameFlag, ite_eq_right_iff,
      decide_eq_false_iff_not]

mutual
theorem errsExpr_nil_iff : ∀ e : PyExpr,
    (errsExpr e = [] ↔ ∀ n ∈ exprNodes e, isForbiddenExprNode n = false)
  | .const => by simp [errsExpr, exprNodes, isForbiddenExprNode]
  | .name id => by
    simp [errsExpr, exprNodes, isForbiddenExprNode, ite_eq_right_iff,
      decide_eq_false_iff_not]
  | .attr v a => by
    simp only [errsExpr, exprNodes, isForbiddenExprNode_attr,
      List.append_eq_nil, List.forall_mem_cons, Bool.or_eq_false_iff]
    rw [errsExpr_nil_iff v, moduleAttrErrs_nil_iff v a]
    by_cases h1 : a ∈ forbiddenAttrs <;>
      simp [h1, decide_eq_false_iff_not, and_assoc]
  | .call f args => by
    simp only [errsExpr, exprNodes, isForbiddenExprNode_call,
      List.append_eq_nil, List.forall_mem_cons, List.forall_mem_append]
    rw [errsExpr_nil_iff f, errsExprList_nil_iff args, callNameErrs_nil_iff f]
    simp [and_assoc]
  | .binop l r => by
    simp only [errsExpr, exprNodes, isForbiddenExprNode_binop,
      List.append_eq_nil, List.forall_mem_cons, List.forall_mem_append]
    rw [errsExpr_nil_iff l, errsExpr_nil_iff r]
    simp
  | .subscript v idx => by
    simp only [errsExpr, exprNodes, isForbiddenExprNode_subscript,
      List.append_eq_nil, List.forall_mem_cons, List.forall_mem_append]
    rw [errsExpr_nil_iff v, errsExpr_nil_iff idx]
    simp
theorem errsExprList_nil_iff : ∀ es : PyExprList,
    (errsExprList es = [] ↔
      ∀ n ∈ exprListNodes es, isForbiddenExprNode n = false)
  | .nil => by simp [errsExprList, exprListNodes]
  | .cons e es => by
    simp only [errsExprList, exprListNodes, List.append_eq_nil,
      List.forall_mem_append]
    rw [errsExpr_nil_iff e, errsExprList_nil_iff es]
end

mutual
theorem errsStmt_nil_iff : ∀ s : PyStmt,
    (errsStmt s = [] ↔
      (∀ n ∈ stmtNodes s, isImportNode n = false) ∧
      ∀ n ∈ stmtExprs s, isForbiddenExprNode n = false)
  | .importStmt => by simp [errsStmt, stmtNodes, stmtExprs, isImportNode]
  | .importFrom => by simp [errsStmt, stmtNodes, stmtExprs, isImportNode]
  | .exprStmt e => by
    simp only [errsStmt, stmtNodes, stmtExprs, List.forall_mem_cons,
      List.not_mem_nil, isImportNode_exprStmt]
    rw [errsExpr_nil_iff e]
    simp
  | .assign t e => by
    simp only [errsStmt, stmtNodes, stmtExprs, List.forall_mem_cons,
      isImportNode_assign]
    rw [errsExpr_nil_iff e]
    simp
  | .ifStmt c b o => by
    simp only [errsStmt, stmtNodes, stmtExprs, List.append_eq_nil,
      List.forall_mem_cons, List.forall_mem_append, isImportNode_ifStmt]
    rw [errsExpr_nil_iff c, errsStmtList_nil_iff b, errsStmtList_nil_iff o]
    tauto
  | .whileStmt c b => by
    simp only [errsStmt, stmtNodes, stmtExprs, List.append_eq_nil,
      List.forall_mem_cons, List.forall_mem_append, isImportNode_whileStmt]
    rw [errsExpr_nil_iff c, errsStmtList_nil_iff b]
    tauto
  | .forStmt t it b => by
    simp only [errsStmt, stmtNodes, stmtExprs, List.append_eq_nil,
      List.forall_mem_cons, List.forall_mem_append, isImportNode_forStmt]
    rw [errsExpr_nil_iff it, errsStmtList_nil_iff b]
    tauto
theorem errsStmtList_nil_iff : ∀ ss : PyStmtList,
    (errsStmtList ss = [] ↔
      (∀ n ∈ stmtListNodes ss, isImportNode n = false) ∧
      ∀ n ∈ stmtListExprs ss, isForbiddenExprNode n = false)
  | .nil => by simp [errsStmtList, stmtListNodes, stmtListExprs]
  | .cons s ss => by
    simp only [errsStmtList, stmtListNodes, stmtListExprs,
      List.append_eq_nil, List.forall_mem_append]
    rw [errsStmt_nil_iff s, errsStmtList_nil_iff ss]
    tauto
end

theorem validate_script_nil_iff (m : PyStmtList) :
    validate_script m = [] ↔ ¬ ContainsForbidden m := by
  unfold validate_script ContainsForbidden
  rw [errsStmtList_nil_iff m]
  constructor
  · intro ⟨h1, h2⟩ h
    rcases h with ⟨n, hn, hf⟩ | ⟨n, hn, hf⟩
    · rw [h1 n hn] at hf
      cases hf
    · rw [h2 n hn] at hf
      cases hf
  · intro h
    constructor
    · intro n hn
      by_contra hc
      exact h (Or.inl ⟨n, hn, by simpa using hc⟩)
    · intro n hn
      by_contra hc
      exact h (Or.inr ⟨n, hn, by simpa using hc⟩)

/-- C8, proved: whenever the script's syntax tree contains any forbidden
construct — an import form, a call to a forbidden builtin such as `eval`,
an attribute access with a forbidden dunder such as `__class__`, or a
reference to or attribute access through a forbidden module such as
`os` — `run_app_script` returns an error result without ever reaching
execution; and a script free of all forbidden constructs passes static
validation (no validation errors). -/
theorem script_validator_rejects_forbidden :
    (∀ (script : PyStmtList) (app_name : String) (execResult : Bool),
      ContainsForbidden script →
      isErrorOutcome (run_app_script app_name script execResult).1 = true ∧
      (run_app_script app_name script execResult).2 = false) ∧
    (∀ script : PyStmtList, ¬ ContainsForbidden script →
      validate_script script = []) ∧
    (∀ script : PyStmtList, validate_script script = [] →
      ¬ ContainsForbidden script) := by
  refine ⟨?_, ?_, ?_⟩
  · intro script app_name execResult h
    have hv : validate_script script ≠ [] := by
      intro hnil
      exact (validate_script_nil_iff script).mp hnil h
    unfold run_app_script
    by_cases ha : String.mk (pyStrip (lowerStr app_name.data)) ∈ supportedApps
    · rw [if_neg (by simpa using ha)]
      rcases hval : validate_script script with _ | ⟨e, es⟩
      · exact absurd hval hv
      · exact ⟨rfl, rfl⟩
    · rw [if_pos (by simpa using ha)]
      exact ⟨rfl, rfl⟩
  · intro script h
    exact (validate_script_nil_iff script).mpr h
  · intro script h
    exact (validate_script_nil_iff script).mp h

/-- `eval('1+1')`-style script: a single call to the forbidden builtin. -/
def demoForbiddenScript : PyStmtList :=
  .cons (.exprStmt (.call (.name "eval") .nil)) .nil

/-- A harmless script: `x = 1`. -/
def demoCleanScript : PyStmtList := .cons (.assign "x" .const) .nil

theorem script_validator_rejects_forbidden_witness :
    (ContainsForbidden demoForbiddenScript ∧
      isErrorOutcome (run_app_script "excel" demoForbiddenScript true).1 =
        true ∧
      (run_app_script "excel" demoForbiddenScript true).2 = false) ∧
    (¬ ContainsForbidden demoCleanScript ∧
      validate_script demoCleanScript = []) := by
  have hforb : ContainsForbidden demoForbiddenScript := by
    refine Or.inr ⟨.call (.name "eval") .nil, ?_, by decide⟩
    simp [demoForbiddenScript, stmtListExprs, stmtExprs, exprNodes,
      exprListNodes]
  have hclean : ¬ ContainsForbidden demoCleanScript := by
    intro h
    rcases h with ⟨n, hn, hf⟩ | ⟨n, hn, hf⟩
    · simp [demoCleanScript, stmtListNodes, stmtNodes] at hn
      rw [hn] at hf
      simp [isImportNode] at hf
    · simp [demoCleanScript, stmtListExprs, stmtExprs, exprNodes] at hn
      rw [hn] at hf
      simp [isForbiddenExprNode] at hf
  have h1 := script_validator_rejects_forbidden.1 demoForbiddenScript "excel"
    true hforb
  exact ⟨⟨hforb, h1.1, h1.2⟩,
    ⟨hclean, script_validator_rejects_forbidden.2.1 demoCleanScript hclean⟩⟩

/-! ## The output redactor (claim C1) -/

/-- A subject with no match anywhere passes `subn` unchanged. -/
theorem subnGo_id_of_no_match (r : Rx) (repl : List Char) :
    ∀ (rest left : List Char) (fuel : Nat),
      hasMatchGo r left rest = false →
      subnGo r repl fuel left rest = (rest, 0) := by
  intro rest
  induction rest with
  | nil =>
    intro left fuel h
    have hm : (mrx r left []).head? = none := by
      unfold hasMatchGo at h
      exact Option.not_isSome_iff_eq_none.mp (by simp [h])
    cases fuel with
    | zero => rfl
    | succ fuel =>
      unfold subnGo
      rw [hm]
  | cons c cs ih =>
    intro left fuel h
    unfold hasMatchGo at h
    rw [Bool.or_eq_false_iff] at h
    have hm : (mrx r left (c :: cs)).head? = none :=
      Option.not_isSome_iff_eq_none.mp (by simp [h.1])
    cases fuel with
    | zero => rfl
    | succ fuel =>
      unfold subnGo
      rw [hm, ih (c :: left) fuel h.2]

/-- `pattern.subn` is the identity (with zero replacements) on subjects
without a match. -/
theorem pySubn_id_of_no_match (r : Rx) (repl : List Char) (s : List Char)
    (h : hasMatch r s = false) : pySubn r repl s = (s, 0) :=
  subnGo_id_of_no_match r repl s [] (s.length + 1) h

/-- C1 counterexample: the claimed postcondition — after redaction no
substring of the value matches any configured sensitive pattern — is
false at the concrete input `"pwd"`: its sanitized form is the marker
`[PASSWORD-FIELD]`, whose substring `PASSWORD` again matches the
case-insensitive `password_field` pattern. -/
theorem sanitize_marker_rematches :
    ¬ (∀ s : List Char, ∀ pr ∈ sensitivePatterns,
        hasMatch pr.1 (sanitize s) = false) ∧
    sanitize (str "pwd") = str "[PASSWORD-FIELD]" := by
  constructor
  · intro h
    have hmem : (passwordRx, str "[PASSWORD-FIELD]") ∈ sensitivePatterns := by
      simp [sensitivePatterns]
    have := h (str "pwd") (passwordRx, str "[PASSWORD-FIELD]") hmem
    rw [show hasMatch passwordRx (sanitize (str "pwd")) = true by decide]
      at this
    cases this
  · decide

/-- C1 amended, proved: `sanitize` replaces, pattern by pattern in the
configured order, every left-to-right non-overlapping match; the claimed
universal no-residual-match postcondition fails because the replacement
markers can themselves match the patterns (see the counterexample), but
it holds on every value in which no configured pattern matches at all —
such values pass through `sanitize` unchanged, hence match-free. -/
theorem sanitize_fixed_on_match_free :
    ∀ s : List Char,
      (∀ pr ∈ sensitivePatterns, hasMatch pr.1 s = false) →
      sanitize s = s ∧
      ∀ pr ∈ sensitivePatterns, hasMatch pr.1 (sanitize s) = false := by
  intro s h
  have hid : sanitize s = s := by
    unfold sanitize
    by_cases hs : s = []
    · rw [if_pos hs]
    · rw [if_neg hs]
      have e1 : pySubn ccRx (str "[CREDIT-CARD-REDACTED]") s = (s, 0) :=
        pySubn_id_of_no_match _ _ s
          (h (ccRx, str "[CREDIT-CARD-REDACTED]") (by simp [sensitivePatterns]))
      have e2 : pySubn ssnRx (str "[SSN-REDACTED]") s = (s, 0) :=
        pySubn_id_of_no_match _ _ s
          (h (ssnRx, str "[SSN-REDACTED]") (by simp [sensitivePatterns]))
      have e3 : pySubn emailRx (str "[EMAIL-REDACTED]") s = (s, 0) :=
        pySubn_id_of_no_match _ _ s
          (h (emailRx, str "[EMAIL-REDACTED]") (by simp [sensitivePatterns]))
      have e4 : pySubn phoneRx (str "[PHONE-REDACTED]") s = (s, 0) :=
        pySubn_id_of_no_match _ _ s
          (h (phoneRx, str "[PHONE-REDACTED]") (by simp [sensitivePatterns]))
      have e5 : pySubn passwordRx (str "[PASSWORD-FIELD]") s = (s, 0) :=
        pySubn_id_of_no_match _ _ s
          (h (passwordRx, str "[PASSWORD-FIELD]") (by simp [sensitivePatterns]))
      simp only [sensitivePatterns, List.foldl_cons, List.foldl_nil,
        e1, e2, e3, e4, e5]
  refine ⟨hid, ?_⟩
  rw [hid]
  exact h

theorem sanitize_fixed_on_match_free_witness :
    (∀ pr ∈ sensitivePatterns, hasMatch pr.1 (str "hello") = false) ∧
    sanitize (str "hello") = str "hello" := by
  exact ⟨by decide, (sanitize_fixed_on_match_free (str "hello") (by decide)).1⟩

end Marlow
